import Mathlib

/-!
Verification of the transfer-matrix / scattering-matrix transport engine in
`src/Transport/TransportClass.py`.

The Python program computes with `numpy.complex128` / `float64`; the shallow
embedding idealises those as `ℂ` / `ℝ`.  A `2N×2N` block matrix sliced by
half-ranges `[0:N]`, `[N:2N]` is embedded as a matrix indexed by
`Fin N ⊕ Fin N` (`Sum.inl` = first half, `Sum.inr` = second half), so that
`numpy` block slicing becomes `Matrix.toBlocks` and `np.block` becomes
`Matrix.fromBlocks`; this mapping is the one realised by `finSumFinEquiv`.
`numpy.linalg.inv` is embedded as the total function `matInv`
(`det⁻¹ • adjugate`, which agrees with Mathlib's nonsingular inverse on every
input); `scipy.linalg.expm` and `numpy.linalg.eigvalsh` are external library
routines, embedded as explicit function parameters (`expf`, `eig`) of the
driver, so every theorem below holds for the actual matrix exponential and
eigensolver in particular.
-/

namespace TransportModel

open Matrix Complex

noncomputable section

/-- Planck constant in Js (`hbar = 1e-34` in the source). -/
def hbar : ℝ := 1e-34

/-- Conversion from nm to m (`nm = 1e-9`). -/
def nm : ℝ := 1e-9

/-- Conversion from Å to m (`ams = 1e-10`). -/
def ams : ℝ := 1e-10

/-- Electron charge in C (`e = 1.6e-19`). -/
def e : ℝ := 1.6e-19

/-- Quantum of flux (`phi0 = 2 * pi * hbar / e`). -/
def phi0 : ℝ := 2 * Real.pi * hbar / e

/-- `N×N` complex matrix (a single-spin mode-space block). -/
abbrev NMat (N : ℕ) := Matrix (Fin N) (Fin N) ℂ

/-- `2N×2N` complex matrix indexed by half-ranges, the type of transfer and
scattering matrices. -/
abbrev SMat (N : ℕ) := Matrix (Fin N ⊕ Fin N) (Fin N ⊕ Fin N) ℂ

/-- Model of `numpy.linalg.inv`: `det⁻¹ • adjugate`.  On invertible input this
is the true inverse (`matInv_eq_inv` below shows it agrees with Mathlib's `⁻¹`
on all input); on singular input `numpy` raises `LinAlgError`, while this total
model returns the zero matrix — no claim below depends on the singular case. -/
def matInv {N : ℕ} (A : NMat N) : NMat N := A.det⁻¹ • A.adjugate

theorem matInv_eq_inv {N : ℕ} (A : NMat N) : matInv A = A⁻¹ := by
  rw [Matrix.inv_def, Ring.inverse_eq_inv]
  rfl

/-- `np.kron` of a `2×2` matrix with an `N×N` matrix.  In `numpy` the `2×2`
factor indexes the outer (half-range) blocks, which is exactly
`Matrix.fromBlocks` of the four scaled copies. -/
def kron2 {N : ℕ} (σ : Matrix (Fin 2) (Fin 2) ℂ) (M : NMat N) : SMat N :=
  Matrix.fromBlocks (σ 0 0 • M) (σ 0 1 • M) (σ 1 0 • M) (σ 1 1 • M)

/-- Pauli matrix `sigma_0 = np.eye(2)`. -/
def sigma_0 : Matrix (Fin 2) (Fin 2) ℂ := !![1, 0; 0, 1]

/-- Pauli matrix `sigma_x`. -/
def sigma_x : Matrix (Fin 2) (Fin 2) ℂ := !![0, 1; 1, 0]

/-- Pauli matrix `sigma_y`. -/
def sigma_y : Matrix (Fin 2) (Fin 2) ℂ := !![0, -Complex.I; Complex.I, 0]

/-- Pauli matrix `sigma_z`. -/
def sigma_z : Matrix (Fin 2) (Fin 2) ℂ := !![1, 0; 0, -1]

theorem kron2_sigma_0 {N : ℕ} (M : NMat N) :
    kron2 sigma_0 M = Matrix.fromBlocks M 0 0 M := by
  simp [kron2, sigma_0]

theorem kron2_sigma_x {N : ℕ} (M : NMat N) :
    kron2 sigma_x M = Matrix.fromBlocks 0 M M 0 := by
  simp [kron2, sigma_x]

theorem kron2_sigma_z {N : ℕ} (M : NMat N) :
    kron2 sigma_z M = Matrix.fromBlocks M 0 0 (-M) := by
  simp [kron2, sigma_z]

/-- `transfer_to_scattering` (source lines 79–98): slice the transfer matrix
into half-range blocks, invert, and reassemble `[[r, t'], [t, r']]`.
`.T.conj()` is the conjugate transpose `ᴴ`. -/
def transfer_to_scattering {N : ℕ} (transfer_matrix : SMat N) : SMat N :=
  let inv_T := transfer_matrix.toBlocks₁₁
  let inv_Tp := transfer_matrix.toBlocks₂₂
  let inv_R := transfer_matrix.toBlocks₂₁
  let inv_Rp := transfer_matrix.toBlocks₁₂
  let T := (matInv inv_T)ᴴ
  let Tp := matInv inv_Tp
  let R := -Tp * inv_R
  let Rp := inv_Rp * Tp
  Matrix.fromBlocks R Tp T Rp

/-- `scat_product` (source lines 100–124) on well-typed equal-size even input:
the Redheffer star product.  `np.eye(n_modes)` is `1`.  The dynamic
shape-mismatch check of the source is modelled by `scat_product_np` below. -/
def scat_product {N : ℕ} (s1 s2 : SMat N) : SMat N :=
  let r1 := s1.toBlocks₁₁
  let r2 := s2.toBlocks₁₁
  let r1p := s1.toBlocks₂₂
  let r2p := s2.toBlocks₂₂
  let t1 := s1.toBlocks₂₁
  let t2 := s2.toBlocks₂₁
  let t1p := s1.toBlocks₁₂
  let t2p := s2.toBlocks₁₂
  let r1pr2t1 := matInv (1 - r1p * r2) * t1
  let r2r1pt2p := matInv (1 - r2 * r1p) * t2p
  Matrix.fromBlocks (r1 + t1p * r2 * r1pr2t1) (t1p * r2r1pt2p)
    (t2 * r1pr2t1) (r2p + t2 * r1p * r2r1pt2p)

/-- The general (dynamically shaped) model of `scat_product`: first the
source's `s1.shape != s2.shape` check, then — for even sizes, the only ones
`numpy`'s half-slicing composes without a matmul dimension error — the typed
`scat_product` transported along the half-range indexing `finSumFinEquiv`. -/
def scat_product_np (s1 s2 : (m : ℕ) × Matrix (Fin m) (Fin m) ℂ) :
    Except String ((m : ℕ) × Matrix (Fin m) (Fin m) ℂ) :=
  if h : s1.1 = s2.1 then
    if h2 : s1.1 / 2 + s1.1 / 2 = s1.1 then
      let eqv : Fin (s1.1 / 2) ⊕ Fin (s1.1 / 2) ≃ Fin s1.1 :=
        finSumFinEquiv.trans (finCongr h2)
      let m1 : SMat (s1.1 / 2) := (Matrix.reindex eqv.symm eqv.symm) s1.2
      let m2 : SMat (s1.1 / 2) :=
        (Matrix.reindex eqv.symm eqv.symm)
          (s2.2.submatrix (Fin.cast h) (Fin.cast h))
      Except.ok ⟨s1.1, (Matrix.reindex eqv eqv) (scat_product m1 m2)⟩
    else Except.error "matmul dimension mismatch"
  else Except.error " Different size for scattering matrices"

/-- The four blocks `r, t', t, r'` of a scattering matrix, the view under
which `scat_product` computes (`SB` = scattering blocks). -/
structure SB (N : ℕ) where
  r : NMat N
  tp : NMat N
  t : NMat N
  rp : NMat N

/-- `scat_product` at the block level, with Mathlib's nonsingular inverse. -/
def SB.comp {N : ℕ} (x y : SB N) : SB N :=
  ⟨x.r + x.tp * y.r * ((1 - x.rp * y.r)⁻¹ * x.t),
   x.tp * ((1 - y.r * x.rp)⁻¹ * y.tp),
   y.t * ((1 - x.rp * y.r)⁻¹ * x.t),
   y.rp + y.t * x.rp * ((1 - y.r * x.rp)⁻¹ * y.tp)⟩

theorem SB.comp_r {N : ℕ} (x y : SB N) :
    (SB.comp x y).r = x.r + x.tp * y.r * ((1 - x.rp * y.r)⁻¹ * x.t) := rfl

theorem SB.comp_tp {N : ℕ} (x y : SB N) :
    (SB.comp x y).tp = x.tp * ((1 - y.r * x.rp)⁻¹ * y.tp) := rfl

theorem SB.comp_t {N : ℕ} (x y : SB N) :
    (SB.comp x y).t = y.t * ((1 - x.rp * y.r)⁻¹ * x.t) := rfl

theorem SB.comp_rp {N : ℕ} (x y : SB N) :
    (SB.comp x y).rp = y.rp + y.t * x.rp * ((1 - y.r * x.rp)⁻¹ * y.tp) := rfl

theorem SB.ext_mk {N : ℕ} {x y : SB N} (h1 : x.r = y.r) (h2 : x.tp = y.tp)
    (h3 : x.t = y.t) (h4 : x.rp = y.rp) : x = y := by
  cases x; cases y; cases h1; cases h2; cases h3; cases h4; rfl

/-- The blocks of a `2N×2N` scattering matrix. -/
def SB.ofMat {N : ℕ} (s : SMat N) : SB N :=
  ⟨s.toBlocks₁₁, s.toBlocks₁₂, s.toBlocks₂₁, s.toBlocks₂₂⟩

/-- Reassemble blocks into a `2N×2N` matrix. -/
def SB.toMat {N : ℕ} (x : SB N) : SMat N :=
  Matrix.fromBlocks x.r x.tp x.t x.rp

theorem scat_product_eq_comp {N : ℕ} (s1 s2 : SMat N) :
    scat_product s1 s2 = (SB.comp (SB.ofMat s1) (SB.ofMat s2)).toMat := by
  simp only [scat_product, SB.comp, SB.ofMat, SB.toMat, matInv_eq_inv]

theorem SB.ofMat_toMat {N : ℕ} (x : SB N) : SB.ofMat (SB.toMat x) = x := by
  cases x
  simp only [SB.ofMat, SB.toMat, Matrix.toBlocks_fromBlocks₁₁,
    Matrix.toBlocks_fromBlocks₁₂, Matrix.toBlocks_fromBlocks₂₁,
    Matrix.toBlocks_fromBlocks₂₂]

/-- If `1 - A*B` is invertible then so is `1 - B*A`
(inverse `1 + B (1-AB)⁻¹ A`). -/
theorem isUnit_det_one_sub_comm {N : ℕ} {A B : NMat N}
    (h : IsUnit ((1 : NMat N) - A * B).det) :
    IsUnit ((1 : NMat N) - B * A).det := by
  have key : (1 - A * B) * (1 - A * B)⁻¹ = 1 := Matrix.mul_nonsing_inv _ h
  apply Matrix.isUnit_det_of_right_inverse
    (B := 1 + B * ((1 - A * B)⁻¹ * A))
  calc ((1 : NMat N) - B * A) * (1 + B * ((1 - A * B)⁻¹ * A))
      = 1 - B * A + B * ((1 - A * B) * (1 - A * B)⁻¹) * A := by noncomm_ring
    _ = 1 := by rw [key]; noncomm_ring

/-- Push-through identity `(1-AB)⁻¹ A = A (1-BA)⁻¹`. -/
theorem inv_one_sub_push {N : ℕ} {A B : NMat N}
    (h : IsUnit ((1 : NMat N) - A * B).det) :
    ((1 : NMat N) - A * B)⁻¹ * A = A * ((1 : NMat N) - B * A)⁻¹ := by
  have h2 : IsUnit ((1 : NMat N) - B * A).det := isUnit_det_one_sub_comm h
  have key : A * (((1 : NMat N) - B * A) * (1 - B * A)⁻¹) = A := by
    rw [Matrix.mul_nonsing_inv _ h2, mul_one]
  calc ((1 : NMat N) - A * B)⁻¹ * A
      = (1 - A * B)⁻¹ * (A * ((1 - B * A) * (1 - B * A)⁻¹)) := by rw [key]
    _ = (1 - A * B)⁻¹ * ((1 - A * B) * (A * (1 - B * A)⁻¹)) := by noncomm_ring
    _ = A * (1 - B * A)⁻¹ := by
        rw [← Matrix.mul_assoc, Matrix.nonsing_inv_mul _ h, Matrix.one_mul]

/-- Cleared form of the key exchange identity for the transmission leg of the
star product: `Gl (F⁻¹ c2) = c2 (E⁻¹ Gr)`. -/
theorem star_cEq {N : ℕ} (a2 b2 c2 d1 d2 a3 E E2 F Gl Gr : NMat N)
    (hEe : E = 1 - d1 * a2) (hE2e : E2 = 1 - a2 * d1) (hFe : F = 1 - d2 * a3)
    (hGle : Gl = 1 - (d2 + c2 * d1 * (E2⁻¹ * b2)) * a3)
    (hGre : Gr = 1 - d1 * (a2 + b2 * a3 * (F⁻¹ * c2)))
    (hE : IsUnit E.det) (hF : IsUnit F.det) :
    Gl * (F⁻¹ * c2) = c2 * (E⁻¹ * Gr) := by
  have hE0 : IsUnit ((1 : NMat N) - d1 * a2).det := by rw [← hEe]; exact hE
  have push : E⁻¹ * d1 = d1 * E2⁻¹ := by
    rw [hEe, hE2e]; exact inv_one_sub_push hE0
  have hGr2 : Gr = E - d1 * (b2 * a3 * (F⁻¹ * c2)) := by
    rw [hGre, hEe]; noncomm_ring
  have hstep : E⁻¹ * Gr = 1 - d1 * (E2⁻¹ * (b2 * a3 * (F⁻¹ * c2))) := by
    calc E⁻¹ * Gr
        = E⁻¹ * E - E⁻¹ * d1 * (b2 * a3 * (F⁻¹ * c2)) := by
          rw [hGr2]; noncomm_ring
      _ = 1 - d1 * (E2⁻¹ * (b2 * a3 * (F⁻¹ * c2))) := by
          rw [Matrix.nonsing_inv_mul _ hE, push]; noncomm_ring
  calc Gl * (F⁻¹ * c2)
      = F * (F⁻¹ * c2) - c2 * d1 * (E2⁻¹ * b2) * a3 * (F⁻¹ * c2) := by
        rw [hGle, hFe]; noncomm_ring
    _ = c2 - c2 * d1 * (E2⁻¹ * b2) * a3 * (F⁻¹ * c2) := by
        rw [Matrix.mul_nonsing_inv_cancel_left _ _ hF]
    _ = c2 * (E⁻¹ * Gr) := by rw [hstep]; noncomm_ring

/-- Exchange identity for the transmission leg:
`F⁻¹ c2 Gr⁻¹ = Gl⁻¹ (c2 E⁻¹)`. -/
theorem star_dagger {N : ℕ} (a2 b2 c2 d1 d2 a3 E E2 F Gl Gr : NMat N)
    (hEe : E = 1 - d1 * a2) (hE2e : E2 = 1 - a2 * d1) (hFe : F = 1 - d2 * a3)
    (hGle : Gl = 1 - (d2 + c2 * d1 * (E2⁻¹ * b2)) * a3)
    (hGre : Gr = 1 - d1 * (a2 + b2 * a3 * (F⁻¹ * c2)))
    (hE : IsUnit E.det) (hF : IsUnit F.det)
    (hGl : IsUnit Gl.det) (hGr : IsUnit Gr.det) :
    F⁻¹ * c2 * Gr⁻¹ = Gl⁻¹ * (c2 * E⁻¹) := by
  have h := star_cEq a2 b2 c2 d1 d2 a3 E E2 F Gl Gr hEe hE2e hFe hGle hGre hE hF
  calc F⁻¹ * c2 * Gr⁻¹
      = Gl⁻¹ * (Gl * (F⁻¹ * c2)) * Gr⁻¹ := by
        rw [Matrix.nonsing_inv_mul_cancel_left _ _ hGl]
    _ = Gl⁻¹ * (c2 * (E⁻¹ * Gr)) * Gr⁻¹ := by rw [h]
    _ = Gl⁻¹ * (c2 * E⁻¹) * Gr * Gr⁻¹ := by noncomm_ring
    _ = Gl⁻¹ * (c2 * E⁻¹) := Matrix.mul_nonsing_inv_cancel_right _ _ hGr

/-- Cleared form of the key exchange identity for the primed transmission leg:
`Gr2 (E2⁻¹ b2) = b2 (F2⁻¹ Gl2)`. -/
theorem star_bEq {N : ℕ} (a2 b2 c2 d1 d2 a3 E E2 F F2 Gl2 Gr2 : NMat N)
    (hEe : E = 1 - d1 * a2) (hE2e : E2 = 1 - a2 * d1) (hFe : F = 1 - d2 * a3)
    (hF2e : F2 = 1 - a3 * d2)
    (hGl2e : Gl2 = 1 - a3 * (d2 + c2 * d1 * (E2⁻¹ * b2)))
    (hGr2e : Gr2 = 1 - (a2 + b2 * a3 * (F⁻¹ * c2)) * d1)
    (hE : IsUnit E.det) (hF : IsUnit F.det) :
    Gr2 * (E2⁻¹ * b2) = b2 * (F2⁻¹ * Gl2) := by
  have hE0 : IsUnit ((1 : NMat N) - d1 * a2).det := by rw [← hEe]; exact hE
  have hF0 : IsUnit ((1 : NMat N) - d2 * a3).det := by rw [← hFe]; exact hF
  have hE2 : IsUnit E2.det := by rw [hE2e]; exact isUnit_det_one_sub_comm hE0
  have hF2 : IsUnit F2.det := by rw [hF2e]; exact isUnit_det_one_sub_comm hF0
  have push2 : F2⁻¹ * a3 = a3 * F⁻¹ := by
    rw [hFe, hF2e]; exact inv_one_sub_push (isUnit_det_one_sub_comm hF0)
  have hGR2E : Gr2 = E2 - b2 * (a3 * (F⁻¹ * c2) * d1) := by
    rw [hGr2e, hE2e]; noncomm_ring
  have hstep : F2⁻¹ * Gl2 = 1 - a3 * (F⁻¹ * (c2 * d1 * (E2⁻¹ * b2))) := by
    calc F2⁻¹ * Gl2
        = F2⁻¹ * F2 - F2⁻¹ * a3 * (c2 * d1 * (E2⁻¹ * b2)) := by
          rw [hGl2e, hF2e]; noncomm_ring
      _ = 1 - a3 * (F⁻¹ * (c2 * d1 * (E2⁻¹ * b2))) := by
          rw [Matrix.nonsing_inv_mul _ hF2, push2]
          noncomm_ring
  calc Gr2 * (E2⁻¹ * b2)
      = E2 * (E2⁻¹ * b2) - b2 * (a3 * (F⁻¹ * c2) * d1) * (E2⁻¹ * b2) := by
        rw [hGR2E]; noncomm_ring
    _ = b2 - b2 * (a3 * (F⁻¹ * c2) * d1) * (E2⁻¹ * b2) := by
        rw [Matrix.mul_nonsing_inv_cancel_left _ _ hE2]
    _ = b2 * (F2⁻¹ * Gl2) := by rw [hstep]; noncomm_ring

/-- Exchange identity for the primed transmission leg:
`E2⁻¹ b2 Gl2⁻¹ = Gr2⁻¹ (b2 F2⁻¹)`. -/
theorem star_ddagger {N : ℕ} (a2 b2 c2 d1 d2 a3 E E2 F F2 Gl2 Gr2 : NMat N)
    (hEe : E = 1 - d1 * a2) (hE2e : E2 = 1 - a2 * d1) (hFe : F = 1 - d2 * a3)
    (hF2e : F2 = 1 - a3 * d2)
    (hGl2e : Gl2 = 1 - a3 * (d2 + c2 * d1 * (E2⁻¹ * b2)))
    (hGr2e : Gr2 = 1 - (a2 + b2 * a3 * (F⁻¹ * c2)) * d1)
    (hE : IsUnit E.det) (hF : IsUnit F.det)
    (hGl2 : IsUnit Gl2.det) (hGr2 : IsUnit Gr2.det) :
    E2⁻¹ * b2 * Gl2⁻¹ = Gr2⁻¹ * (b2 * F2⁻¹) := by
  have h := star_bEq a2 b2 c2 d1 d2 a3 E E2 F F2 Gl2 Gr2 hEe hE2e hFe hF2e
    hGl2e hGr2e hE hF
  calc E2⁻¹ * b2 * Gl2⁻¹
      = Gr2⁻¹ * (Gr2 * (E2⁻¹ * b2)) * Gl2⁻¹ := by
        rw [Matrix.nonsing_inv_mul_cancel_left _ _ hGr2]
    _ = Gr2⁻¹ * (b2 * (F2⁻¹ * Gl2)) * Gl2⁻¹ := by rw [h]
    _ = Gr2⁻¹ * (b2 * F2⁻¹) * Gl2 * Gl2⁻¹ := by noncomm_ring
    _ = Gr2⁻¹ * (b2 * F2⁻¹) := Matrix.mul_nonsing_inv_cancel_right _ _ hGl2

/-- Exchange of the outer kernel across `a3`:
`(F2⁻¹ Gl2) a3 = a3 (F⁻¹ Gl)`. -/
theorem star_Ka {N : ℕ} (d2 a3 X F F2 Gl Gl2 : NMat N)
    (hFe : F = 1 - d2 * a3) (hF2e : F2 = 1 - a3 * d2)
    (hGle : Gl = 1 - (d2 + X) * a3) (hGl2e : Gl2 = 1 - a3 * (d2 + X))
    (hF : IsUnit F.det) :
    (F2⁻¹ * Gl2) * a3 = a3 * (F⁻¹ * Gl) := by
  have hF0 : IsUnit ((1 : NMat N) - d2 * a3).det := by rw [← hFe]; exact hF
  have hF2 : IsUnit F2.det := by rw [hF2e]; exact isUnit_det_one_sub_comm hF0
  have push2 : F2⁻¹ * a3 = a3 * F⁻¹ := by
    rw [hFe, hF2e]; exact inv_one_sub_push (isUnit_det_one_sub_comm hF0)
  calc (F2⁻¹ * Gl2) * a3
      = (F2⁻¹ * F2 - F2⁻¹ * a3 * X) * a3 := by rw [hGl2e, hF2e]; noncomm_ring
    _ = (1 - a3 * (F⁻¹ * X)) * a3 := by
        rw [Matrix.nonsing_inv_mul _ hF2, push2]; noncomm_ring
    _ = a3 * (F⁻¹ * F) - a3 * (F⁻¹ * (X * a3)) := by
        rw [Matrix.nonsing_inv_mul _ hF]; noncomm_ring
    _ = a3 * (F⁻¹ * Gl) := by rw [hGle, hFe]; noncomm_ring

/-- Closed form of the inverse of the right-association kernel:
`Gr⁻¹ = E⁻¹ + d1 (E2⁻¹ b2) a3 (Gl⁻¹ (c2 E⁻¹))`. -/
theorem star_grInv {N : ℕ} (a2 b2 c2 d1 d2 a3 E E2 F F2 Gl Gl2 Gr Gr2 : NMat N)
    (hEe : E = 1 - d1 * a2) (hE2e : E2 = 1 - a2 * d1) (hFe : F = 1 - d2 * a3)
    (hF2e : F2 = 1 - a3 * d2)
    (hGle : Gl = 1 - (d2 + c2 * d1 * (E2⁻¹ * b2)) * a3)
    (hGl2e : Gl2 = 1 - a3 * (d2 + c2 * d1 * (E2⁻¹ * b2)))
    (hGre : Gr = 1 - d1 * (a2 + b2 * a3 * (F⁻¹ * c2)))
    (hGr2e : Gr2 = 1 - (a2 + b2 * a3 * (F⁻¹ * c2)) * d1)
    (hE : IsUnit E.det) (hF : IsUnit F.det)
    (hGl : IsUnit Gl.det) :
    Gr⁻¹ = E⁻¹ + d1 * (E2⁻¹ * b2) * a3 * (Gl⁻¹ * (c2 * E⁻¹)) := by
  have hbEq := star_bEq a2 b2 c2 d1 d2 a3 E E2 F F2 Gl2 Gr2 hEe hE2e hFe hF2e
    hGl2e hGr2e hE hF
  have hKa := star_Ka d2 a3 (c2 * d1 * (E2⁻¹ * b2)) F F2 Gl Gl2 hFe hF2e
    hGle hGl2e hF
  have hGrd1 : Gr * d1 = d1 * Gr2 := by rw [hGre, hGr2e]; noncomm_ring
  have hGrE : Gr = E - d1 * (b2 * a3 * (F⁻¹ * c2)) := by
    rw [hGre, hEe]; noncomm_ring
  have t1 : Gr * E⁻¹ = 1 - d1 * (b2 * a3 * (F⁻¹ * c2)) * E⁻¹ := by
    calc Gr * E⁻¹
        = E * E⁻¹ - d1 * (b2 * a3 * (F⁻¹ * c2)) * E⁻¹ := by
          rw [hGrE]; noncomm_ring
      _ = 1 - d1 * (b2 * a3 * (F⁻¹ * c2)) * E⁻¹ := by
          rw [Matrix.mul_nonsing_inv _ hE]
  have t2 : Gr * (d1 * (E2⁻¹ * b2) * a3 * (Gl⁻¹ * (c2 * E⁻¹)))
      = d1 * (b2 * a3 * (F⁻¹ * c2)) * E⁻¹ := by
    calc Gr * (d1 * (E2⁻¹ * b2) * a3 * (Gl⁻¹ * (c2 * E⁻¹)))
        = (Gr * d1) * (E2⁻¹ * b2) * a3 * (Gl⁻¹ * (c2 * E⁻¹)) := by noncomm_ring
      _ = (d1 * Gr2) * (E2⁻¹ * b2) * a3 * (Gl⁻¹ * (c2 * E⁻¹)) := by rw [hGrd1]
      _ = d1 * (Gr2 * (E2⁻¹ * b2)) * a3 * (Gl⁻¹ * (c2 * E⁻¹)) := by noncomm_ring
      _ = d1 * (b2 * (F2⁻¹ * Gl2)) * a3 * (Gl⁻¹ * (c2 * E⁻¹)) := by rw [hbEq]
      _ = d1 * b2 * ((F2⁻¹ * Gl2) * a3) * (Gl⁻¹ * (c2 * E⁻¹)) := by noncomm_ring
      _ = d1 * b2 * (a3 * (F⁻¹ * Gl)) * (Gl⁻¹ * (c2 * E⁻¹)) := by rw [hKa]
      _ = d1 * b2 * a3 * F⁻¹ * (Gl * (Gl⁻¹ * (c2 * E⁻¹))) := by noncomm_ring
      _ = d1 * b2 * a3 * F⁻¹ * (c2 * E⁻¹) := by
          rw [Matrix.mul_nonsing_inv_cancel_left _ _ hGl]
      _ = d1 * (b2 * a3 * (F⁻¹ * c2)) * E⁻¹ := by noncomm_ring
  have key : Gr * (E⁻¹ + d1 * (E2⁻¹ * b2) * a3 * (Gl⁻¹ * (c2 * E⁻¹))) = 1 := by
    calc Gr * (E⁻¹ + d1 * (E2⁻¹ * b2) * a3 * (Gl⁻¹ * (c2 * E⁻¹)))
        = Gr * E⁻¹ + Gr * (d1 * (E2⁻¹ * b2) * a3 * (Gl⁻¹ * (c2 * E⁻¹))) := by
          noncomm_ring
      _ = 1 := by rw [t1, t2]; noncomm_ring
  exact Matrix.inv_eq_right_inv key

/-- Bracket identity settling the reflection block of associativity. -/
theorem star_rEq {N : ℕ} (a2 b2 c1 c2 d1 d2 a3 E E2 F F2 Gl Gl2 Gr Gr2 : NMat N)
    (hEe : E = 1 - d1 * a2) (hE2e : E2 = 1 - a2 * d1) (hFe : F = 1 - d2 * a3)
    (hF2e : F2 = 1 - a3 * d2)
    (hGle : Gl = 1 - (d2 + c2 * d1 * (E2⁻¹ * b2)) * a3)
    (hGl2e : Gl2 = 1 - a3 * (d2 + c2 * d1 * (E2⁻¹ * b2)))
    (hGre : Gr = 1 - d1 * (a2 + b2 * a3 * (F⁻¹ * c2)))
    (hGr2e : Gr2 = 1 - (a2 + b2 * a3 * (F⁻¹ * c2)) * d1)
    (hE : IsUnit E.det) (hF : IsUnit F.det)
    (hGl : IsUnit Gl.det) (hGr : IsUnit Gr.det) :
    a2 * (E⁻¹ * c1) + (E2⁻¹ * b2) * a3 * (Gl⁻¹ * (c2 * (E⁻¹ * c1)))
      = (a2 + b2 * a3 * (F⁻¹ * c2)) * (Gr⁻¹ * c1) := by
  have hE0 : IsUnit ((1 : NMat N) - d1 * a2).det := by rw [← hEe]; exact hE
  have hE2 : IsUnit E2.det := by rw [hE2e]; exact isUnit_det_one_sub_comm hE0
  have hA := star_grInv a2 b2 c2 d1 d2 a3 E E2 F F2 Gl Gl2 Gr Gr2 hEe hE2e hFe
    hF2e hGle hGl2e hGre hGr2e hE hF hGl
  have hdag := star_dagger a2 b2 c2 d1 d2 a3 E E2 F Gl Gr hEe hE2e hFe hGle
    hGre hE hF hGl hGr
  have hE2X : E2⁻¹ = 1 + a2 * (d1 * E2⁻¹) := by
    calc E2⁻¹ = (E2 + a2 * d1) * E2⁻¹ := by rw [hE2e]; noncomm_ring
      _ = E2 * E2⁻¹ + a2 * (d1 * E2⁻¹) := by noncomm_ring
      _ = 1 + a2 * (d1 * E2⁻¹) := by rw [Matrix.mul_nonsing_inv _ hE2]
  calc a2 * (E⁻¹ * c1) + (E2⁻¹ * b2) * a3 * (Gl⁻¹ * (c2 * (E⁻¹ * c1)))
      = a2 * (E⁻¹ * c1)
          + ((1 + a2 * (d1 * E2⁻¹)) * b2) * a3 * (Gl⁻¹ * (c2 * (E⁻¹ * c1))) := by
        rw [← hE2X]
    _ = a2 * ((E⁻¹ + d1 * (E2⁻¹ * b2) * a3 * (Gl⁻¹ * (c2 * E⁻¹))) * c1)
          + b2 * a3 * ((Gl⁻¹ * (c2 * E⁻¹)) * c1) := by noncomm_ring
    _ = a2 * (Gr⁻¹ * c1) + b2 * a3 * ((Gl⁻¹ * (c2 * E⁻¹)) * c1) := by rw [hA]
    _ = a2 * (Gr⁻¹ * c1) + b2 * a3 * ((F⁻¹ * c2 * Gr⁻¹) * c1) := by rw [hdag]
    _ = (a2 + b2 * a3 * (F⁻¹ * c2)) * (Gr⁻¹ * c1) := by noncomm_ring

/-- Bracket identity settling the primed reflection block of associativity. -/
theorem star_dEq {N : ℕ} (d2 a3 X F F2 Gl2 : NMat N)
    (hFe : F = 1 - d2 * a3) (hF2e : F2 = 1 - a3 * d2)
    (hGl2e : Gl2 = 1 - a3 * (d2 + X))
    (hF : IsUnit F.det) (hGl2 : IsUnit Gl2.det) :
    (d2 + X) * Gl2⁻¹ = d2 * F2⁻¹ + F⁻¹ * X * Gl2⁻¹ := by
  have hF0 : IsUnit ((1 : NMat N) - d2 * a3).det := by rw [← hFe]; exact hF
  have hF2 : IsUnit F2.det := by rw [hF2e]; exact isUnit_det_one_sub_comm hF0
  have pushF : F⁻¹ * d2 = d2 * F2⁻¹ := by
    rw [hFe, hF2e]; exact inv_one_sub_push hF0
  have hD0 : (d2 + X) - F⁻¹ * X = d2 * (F2⁻¹ * Gl2) := by
    calc (d2 + X) - F⁻¹ * X
        = d2 + (F⁻¹ * F) * X - F⁻¹ * X := by
          rw [Matrix.nonsing_inv_mul _ hF]; noncomm_ring
      _ = d2 - (F⁻¹ * d2) * (a3 * X) := by rw [hFe]; noncomm_ring
      _ = d2 - (d2 * F2⁻¹) * (a3 * X) := by rw [pushF]
      _ = d2 * (F2⁻¹ * F2) - d2 * (F2⁻¹ * (a3 * X)) := by
          rw [Matrix.nonsing_inv_mul _ hF2]; noncomm_ring
      _ = d2 * (F2⁻¹ * Gl2) := by rw [hGl2e, hF2e]; noncomm_ring
  have hcancel : d2 * (F2⁻¹ * Gl2) * Gl2⁻¹ = d2 * F2⁻¹ := by
    calc d2 * (F2⁻¹ * Gl2) * Gl2⁻¹
        = d2 * F2⁻¹ * (Gl2 * Gl2⁻¹) := by noncomm_ring
      _ = d2 * F2⁻¹ := by rw [Matrix.mul_nonsing_inv _ hGl2, mul_one]
  calc (d2 + X) * Gl2⁻¹
      = ((d2 + X) - F⁻¹ * X) * Gl2⁻¹ + F⁻¹ * X * Gl2⁻¹ := by noncomm_ring
    _ = d2 * (F2⁻¹ * Gl2) * Gl2⁻¹ + F⁻¹ * X * Gl2⁻¹ := by rw [hD0]
    _ = d2 * F2⁻¹ + F⁻¹ * X * Gl2⁻¹ := by rw [hcancel]

/-- Associativity of the block-level star product, under invertibility of the
four composition kernels. -/
theorem SB.comp_assoc {N : ℕ} (x y z : SB N)
    (hE : IsUnit ((1 : NMat N) - x.rp * y.r).det)
    (hF : IsUnit ((1 : NMat N) - y.rp * z.r).det)
    (hGl : IsUnit ((1 : NMat N) - (SB.comp x y).rp * z.r).det)
    (hGr : IsUnit ((1 : NMat N) - x.rp * (SB.comp y z).r).det) :
    SB.comp (SB.comp x y) z = SB.comp x (SB.comp y z) := by
  rw [SB.comp_rp] at hGl
  rw [SB.comp_r] at hGr
  have hE0 : IsUnit ((1 : NMat N) - y.r * x.rp).det := isUnit_det_one_sub_comm hE
  have hGl2 : IsUnit ((1 : NMat N)
      - z.r * (y.rp + y.t * x.rp * ((1 - y.r * x.rp)⁻¹ * y.tp))).det :=
    isUnit_det_one_sub_comm hGl
  have hGr2 : IsUnit ((1 : NMat N)
      - (y.r + y.tp * z.r * ((1 - y.rp * z.r)⁻¹ * y.t)) * x.rp).det :=
    isUnit_det_one_sub_comm hGr
  have hdag := star_dagger y.r y.tp y.t x.rp y.rp z.r
    (1 - x.rp * y.r) (1 - y.r * x.rp) (1 - y.rp * z.r)
    (1 - (y.rp + y.t * x.rp * ((1 - y.r * x.rp)⁻¹ * y.tp)) * z.r)
    (1 - x.rp * (y.r + y.tp * z.r * ((1 - y.rp * z.r)⁻¹ * y.t)))
    rfl rfl rfl rfl rfl hE hF hGl hGr
  have hddag := star_ddagger y.r y.tp y.t x.rp y.rp z.r
    (1 - x.rp * y.r) (1 - y.r * x.rp) (1 - y.rp * z.r) (1 - z.r * y.rp)
    (1 - z.r * (y.rp + y.t * x.rp * ((1 - y.r * x.rp)⁻¹ * y.tp)))
    (1 - (y.r + y.tp * z.r * ((1 - y.rp * z.r)⁻¹ * y.t)) * x.rp)
    rfl rfl rfl rfl rfl rfl hE hF hGl2 hGr2
  have hrEq := star_rEq y.r y.tp x.t y.t x.rp y.rp z.r
    (1 - x.rp * y.r) (1 - y.r * x.rp) (1 - y.rp * z.r) (1 - z.r * y.rp)
    (1 - (y.rp + y.t * x.rp * ((1 - y.r * x.rp)⁻¹ * y.tp)) * z.r)
    (1 - z.r * (y.rp + y.t * x.rp * ((1 - y.r * x.rp)⁻¹ * y.tp)))
    (1 - x.rp * (y.r + y.tp * z.r * ((1 - y.rp * z.r)⁻¹ * y.t)))
    (1 - (y.r + y.tp * z.r * ((1 - y.rp * z.r)⁻¹ * y.t)) * x.rp)
    rfl rfl rfl rfl rfl rfl rfl rfl hE hF hGl hGr
  have hD := star_dEq y.rp z.r (y.t * x.rp * ((1 - y.r * x.rp)⁻¹ * y.tp))
    (1 - y.rp * z.r)
    (1 - z.r * y.rp)
    (1 - z.r * (y.rp + y.t * x.rp * ((1 - y.r * x.rp)⁻¹ * y.tp)))
    rfl rfl rfl hF hGl2
  refine SB.ext_mk ?_ ?_ ?_ ?_
  · simp only [SB.comp_r, SB.comp_tp, SB.comp_t, SB.comp_rp]
    calc x.r + x.tp * y.r * ((1 - x.rp * y.r)⁻¹ * x.t)
          + x.tp * ((1 - y.r * x.rp)⁻¹ * y.tp) * z.r
            * ((1 - (y.rp + y.t * x.rp * ((1 - y.r * x.rp)⁻¹ * y.tp)) * z.r)⁻¹
              * (y.t * ((1 - x.rp * y.r)⁻¹ * x.t)))
        = x.r + x.tp
            * (y.r * ((1 - x.rp * y.r)⁻¹ * x.t)
              + ((1 - y.r * x.rp)⁻¹ * y.tp) * z.r
                * ((1 - (y.rp + y.t * x.rp * ((1 - y.r * x.rp)⁻¹ * y.tp))
                    * z.r)⁻¹
                  * (y.t * ((1 - x.rp * y.r)⁻¹ * x.t)))) := by noncomm_ring
      _ = x.r + x.tp
            * ((y.r + y.tp * z.r * ((1 - y.rp * z.r)⁻¹ * y.t))
              * ((1 - x.rp
                  * (y.r + y.tp * z.r * ((1 - y.rp * z.r)⁻¹ * y.t)))⁻¹
                * x.t)) := by rw [hrEq]
      _ = x.r + x.tp * (y.r + y.tp * z.r * ((1 - y.rp * z.r)⁻¹ * y.t))
            * ((1 - x.rp * (y.r + y.tp * z.r * ((1 - y.rp * z.r)⁻¹ * y.t)))⁻¹
              * x.t) := by noncomm_ring
  · simp only [SB.comp_r, SB.comp_tp, SB.comp_t, SB.comp_rp]
    calc x.tp * ((1 - y.r * x.rp)⁻¹ * y.tp)
          * ((1 - z.r * (y.rp + y.t * x.rp * ((1 - y.r * x.rp)⁻¹ * y.tp)))⁻¹
            * z.tp)
        = x.tp * (((1 - y.r * x.rp)⁻¹ * y.tp
            * (1 - z.r
                * (y.rp + y.t * x.rp * ((1 - y.r * x.rp)⁻¹ * y.tp)))⁻¹)
              * z.tp) := by noncomm_ring
      _ = x.tp * (((1 - (y.r + y.tp * z.r * ((1 - y.rp * z.r)⁻¹ * y.t))
              * x.rp)⁻¹
            * (y.tp * (1 - z.r * y.rp)⁻¹)) * z.tp) := by rw [hddag]
      _ = x.tp * ((1 - (y.r + y.tp * z.r * ((1 - y.rp * z.r)⁻¹ * y.t))
              * x.rp)⁻¹
            * (y.tp * ((1 - z.r * y.rp)⁻¹ * z.tp))) := by noncomm_ring
  · simp only [SB.comp_r, SB.comp_tp, SB.comp_t, SB.comp_rp]
    calc z.t * ((1 - (y.rp + y.t * x.rp * ((1 - y.r * x.rp)⁻¹ * y.tp)) * z.r)⁻¹
          * (y.t * ((1 - x.rp * y.r)⁻¹ * x.t)))
        = z.t * (((1 - (y.rp + y.t * x.rp * ((1 - y.r * x.rp)⁻¹ * y.tp))
              * z.r)⁻¹
            * (y.t * (1 - x.rp * y.r)⁻¹)) * x.t) := by noncomm_ring
      _ = z.t * (((1 - y.rp * z.r)⁻¹ * y.t
            * (1 - x.rp
                * (y.r + y.tp * z.r * ((1 - y.rp * z.r)⁻¹ * y.t)))⁻¹)
              * x.t) := by rw [← hdag]
      _ = z.t * ((1 - y.rp * z.r)⁻¹ * y.t)
            * ((1 - x.rp * (y.r + y.tp * z.r * ((1 - y.rp * z.r)⁻¹ * y.t)))⁻¹
              * x.t) := by noncomm_ring
  · simp only [SB.comp_r, SB.comp_tp, SB.comp_t, SB.comp_rp]
    calc z.rp + z.t * (y.rp + y.t * x.rp * ((1 - y.r * x.rp)⁻¹ * y.tp))
          * ((1 - z.r * (y.rp + y.t * x.rp * ((1 - y.r * x.rp)⁻¹ * y.tp)))⁻¹
            * z.tp)
        = z.rp + z.t
            * (((y.rp + y.t * x.rp * ((1 - y.r * x.rp)⁻¹ * y.tp))
                * (1 - z.r
                    * (y.rp + y.t * x.rp
                      * ((1 - y.r * x.rp)⁻¹ * y.tp)))⁻¹)
              * z.tp) := by noncomm_ring
      _ = z.rp + z.t
            * ((y.rp * (1 - z.r * y.rp)⁻¹
              + (1 - y.rp * z.r)⁻¹
                  * (y.t * x.rp * ((1 - y.r * x.rp)⁻¹ * y.tp))
                  * (1 - z.r
                      * (y.rp + y.t * x.rp
                        * ((1 - y.r * x.rp)⁻¹ * y.tp)))⁻¹)
              * z.tp) := by rw [hD]
      _ = z.rp + z.t * y.rp * ((1 - z.r * y.rp)⁻¹ * z.tp)
            + z.t * ((1 - y.rp * z.r)⁻¹ * (y.t * x.rp))
              * (((1 - y.r * x.rp)⁻¹ * y.tp
                * (1 - z.r
                    * (y.rp + y.t * x.rp
                      * ((1 - y.r * x.rp)⁻¹ * y.tp)))⁻¹)
                * z.tp) := by noncomm_ring
      _ = z.rp + z.t * y.rp * ((1 - z.r * y.rp)⁻¹ * z.tp)
            + z.t * ((1 - y.rp * z.r)⁻¹ * (y.t * x.rp))
              * (((1 - (y.r + y.tp * z.r * ((1 - y.rp * z.r)⁻¹ * y.t))
                    * x.rp)⁻¹
                * (y.tp * (1 - z.r * y.rp)⁻¹)) * z.tp) := by rw [hddag]
      _ = z.rp + z.t * y.rp * ((1 - z.r * y.rp)⁻¹ * z.tp)
            + z.t * ((1 - y.rp * z.r)⁻¹ * y.t) * x.rp
              * ((1 - (y.r + y.tp * z.r * ((1 - y.rp * z.r)⁻¹ * y.t))
                    * x.rp)⁻¹
                * (y.tp * ((1 - z.r * y.rp)⁻¹ * z.tp))) := by noncomm_ring

/-- `M_Ax` (source lines 37–57): vector-potential mode-mixing matrix.  When
`w` or `h` is `None` the source returns the scalar `0`, which acts as the zero
matrix under the `+=` in the driver; the model returns the zero matrix. -/
def M_Ax {N : ℕ} (modes : Fin N → ℤ) (dx : ℝ) (w h : Option ℝ) (B_perp : ℝ) :
    SMat N :=
  match w, h with
  | some wv, some hv =>
    let P : ℝ := 2 * (wv + hv)
    let ra : ℝ := wv / (wv + hv)
    let C : ℂ :=
      -Complex.I * ((nm ^ 2 / hbar) * e * B_perp * P / Real.pi ^ 2 : ℝ)
    let M : NMat N :=
      if B_perp ≠ 0 then
        Matrix.of fun i j =>
          if (modes i - modes j) % 2 ≠ 0 then
            C * (-1 : ℂ) ^ ((modes i - modes j + 1) / 2)
              * ((Real.sin ((modes i - modes j : ℝ) * Real.pi * ra / 2) : ℝ) : ℂ)
              / (((modes i - modes j : ℝ) ^ 2 : ℝ) : ℂ)
          else 0
      else 0
    (dx : ℂ) • kron2 sigma_0 M
  | _, _ => 0

/-- `M_theta` (source lines 60–66): angular term, diagonal in the mode index.
In Python the branch `C * R ** 2` is taken when `w is None or h is None`. -/
def M_theta {N : ℕ} (modes : Fin N → ℤ) (dx R dR : ℝ) (w h : Option ℝ)
    (B_par : ℝ) : SMat N :=
  let C : ℝ := 0.5 * nm ^ 2 * e * B_par / hbar
  let A_theta : ℝ :=
    match w, h with
    | some wv, some hv => C * (wv * hv / Real.pi)
    | _, _ => C * R ^ 2
  let M : NMat N :=
    ((Real.sqrt (1 + dR ^ 2) / R : ℝ) : ℂ) •
      Matrix.diagonal fun i => (((modes i : ℝ) - 0.5 + A_theta : ℝ) : ℂ)
  (dx : ℂ) • kron2 sigma_x M

/-- `M_EV` (source lines 69–77) on well-typed input: energy/potential term.
`Vnm = None` defaults to the zero potential (`np.zeros` broadcast).  The
dynamic shape check of the source is modelled by `M_EV_np` below. -/
def M_EV {N : ℕ} (_modes : Fin N → ℤ) (dx dR E vf : ℝ)
    (Vnm : Option (NMat N)) : SMat N :=
  let V : NMat N := Vnm.getD 0
  let M : NMat N :=
    (Complex.I / (vf : ℂ) * ((Real.sqrt (1 + dR ^ 2) : ℝ) : ℂ)) •
      ((E : ℂ) • (1 : NMat N) - V)
  (dx : ℂ) • kron2 sigma_z M

/-- The general (dynamically shaped) model of `M_EV`: the source checks
`Vnm.shape != (len(modes), len(modes))` and raises an `AssertionError`
otherwise; on the matching shape it computes `M_EV`. -/
def M_EV_np {N : ℕ} (modes : Fin N → ℤ) (dx dR E vf : ℝ)
    (Vnm : Option ((p : ℕ) × (q : ℕ) × Matrix (Fin p) (Fin q) ℂ)) :
    Except String (SMat N) :=
  match Vnm with
  | none => Except.ok (M_EV modes dx dR E vf none)
  | some v =>
    if hpq : v.1 = N ∧ v.2.1 = N then
      Except.ok (M_EV modes dx dR E vf
        (some (Matrix.of fun i j =>
          v.2.2 (Fin.cast hpq.1.symm i) (Fin.cast hpq.2.symm j))))
    else Except.error "Vnm must be the Fourier transform matrix of V"

/-- `step` (source lines 26–29): `np.heaviside(x1-x2, 1)` when no smoothing
(`0` below, `1` at and above), smoothed arctan profile otherwise. -/
def step (x1 x2 : ℝ) (sigma : Option ℝ) : ℝ :=
  match sigma with
  | none => if x1 - x2 < 0 then 0 else 1
  | some s => 0.5 + (1 / Real.pi) * Real.arctan (s * (x1 - x2))

/-- `geom_nc` (source lines 31–34): tapered-radius profile of a nanocone. -/
def geom_nc (x x1 x2 r1 r2 : ℝ) (sigma : Option ℝ) : ℝ :=
  r1 + (r2 - r1) * step x x2 sigma
    + ((r2 - r1) / (x2 - x1)) * (x - x1) * (step x x1 sigma - step x x2 sigma)

/-- `np.linspace(a, b, n)` as a function of the sample index. -/
def linspace (a b : ℝ) (n : ℕ) : ℕ → ℝ :=
  fun j => if n = 1 then a else a + (j : ℝ) * (b - a) / ((n : ℝ) - 1)

/-- One region record of the geometry dictionary: a nanowire (`add_nw`) or a
nanocone (`add_nc`).  For a nanowire the stored radius is never `None`
(`add_nw` always fills it in), hence `r : ℝ`; width and height stay optional.
For a nanocone the radius is a sampled array, modelled as its index function,
and width/height are optional sampled arrays. -/
inductive Region (N : ℕ) : Type where
  | nw (x0 xf dx : ℝ) (n_points : Option ℕ) (V : Option (NMat N)) (r : ℝ)
      (w h : Option ℝ)
  | nc (x0 xf dx : ℝ) (n_points : ℕ) (V : Option (NMat N)) (r : ℕ → ℝ)
      (w h : Option (ℕ → ℝ))

/-- The stored final point of a region. -/
def Region.xf {N : ℕ} : Region N → ℝ
  | .nw _ xf _ _ _ _ _ _ => xf
  | .nc _ xf _ _ _ _ _ _ => xf

/-- The `transport` dataclass (source lines 160–176).  The geometry dictionary
is modelled as a function from region index to an optional region record.
The derived attributes `modes = np.arange(-l_cutoff, l_cutoff+1)` and
`Nmodes = len(modes)` are set only in `__post_init__` and never reassigned;
they are modelled as the derived functions `transport.modes` and
`transport.Nmodes` of `l_cutoff` below. -/
structure transport where
  vf : ℝ
  B_perp : ℝ
  B_par : ℝ
  l_cutoff : ℕ
  geometry : ℕ → Option (Region (2 * l_cutoff + 1))
  n_regions : ℕ

/-- `Nmodes = len(np.arange(-l_cutoff, l_cutoff+1)) = 2*l_cutoff + 1`. -/
abbrev transport.Nmodes (st : transport) : ℕ := 2 * st.l_cutoff + 1

/-- `modes = np.arange(-l_cutoff, l_cutoff+1)`, as index function. -/
def transport.modes (st : transport) : Fin st.Nmodes → ℤ :=
  fun i => (i : ℤ) - st.l_cutoff

/-- The dataclass constructor together with `__post_init__`: empty geometry,
zero regions. -/
def transport.init (vf B_perp B_par : ℝ) (l_cutoff : ℕ) : transport :=
  ⟨vf, B_perp, B_par, l_cutoff, fun _ => none, 0⟩

/-- The shared leading check of `add_nw`/`add_nc` (source lines 196 and 236):
`if self.n_regions != 0 and x0 != self.geometry[self.n_regions - 1]['xf']`.
A failing check raises before any mutation, so the error carries the state at
raise time, which is the unchanged input state. -/
def boundary_check (st : transport) (x0 : ℝ) :
    Except (String × transport) Unit :=
  if st.n_regions ≠ 0 then
    match st.geometry (st.n_regions - 1) with
    | none => Except.error ("KeyError", st)
    | some prev =>
      if x0 ≠ prev.xf then Except.error ("Regions dont match", st)
      else Except.ok ()
  else Except.ok ()

/-- `(w + h) / pi if r is None else r` (source lines 208 and 248–249).  The
final catch-all is unreachable behind the `Need to specify r or (w, h)`
check. -/
def radius_default (r w h : Option ℝ) : ℝ :=
  match r, w, h with
  | some rv, _, _ => rv
  | none, some wv, some hv => (wv + hv) / Real.pi
  | _, _, _ => 0

/-- `transport.add_nw` (source lines 178–211), as a state-passing function.
An error carries the state at raise time. -/
def add_nw (st : transport) (x0 xf : ℝ) (Vnm : Option (NMat st.Nmodes))
    (n_points : Option ℕ) (r w h : Option ℝ) :
    Except (String × transport) transport :=
  match boundary_check st x0 with
  | .error err => .error err
  | .ok _ =>
    if r = none ∧ (w = none ∨ h = none) then
      .error ("Need to specify r or (w, h)", st)
    else
      let dx : ℝ :=
        match n_points with
        | none => 100
        | some n => |xf - x0| / (n : ℝ)
      let reg : Region st.Nmodes :=
        Region.nw x0 xf dx n_points Vnm (radius_default r w h) w h
      .ok { st with
              geometry := Function.update st.geometry st.n_regions (some reg),
              n_regions := st.n_regions + 1 }

/-- `transport.add_nc` (source lines 213–257), as a state-passing function.
An error carries the state at raise time. -/
def add_nc (st : transport) (x0 xf : ℝ) (n_points : ℕ)
    (Vnm : Option (NMat st.Nmodes)) (sigma r1 r2 w1 w2 h1 h2 : Option ℝ) :
    Except (String × transport) transport :=
  match boundary_check st x0 with
  | .error err => .error err
  | .ok _ =>
    if r1 = none ∧ (w1 = none ∨ h1 = none) then
      .error ("Need to specify r or (w, h)", st)
    else if r2 = none ∧ (w2 = none ∨ h2 = none) then
      .error ("Need to specify r or (w, h)", st)
    else
      let dx : ℝ := |xf - x0| / (n_points : ℝ)
      let r1v := radius_default r1 w1 h1
      let r2v := radius_default r2 w2 h2
      let x : ℕ → ℝ := linspace x0 xf n_points
      let rArr : ℕ → ℝ := fun j => geom_nc (x j) x0 xf r1v r2v sigma
      let wArr : Option (ℕ → ℝ) :=
        match w1, w2 with
        | some w1v, some w2v => some fun j => geom_nc (x j) x0 xf w1v w2v sigma
        | _, _ => none
      let hArr : Option (ℕ → ℝ) :=
        match h1, h2 with
        | some h1v, some h2v => some fun j => geom_nc (x j) x0 xf h1v h2v sigma
        | _, _ => none
      .ok { st with
              geometry := Function.update st.geometry st.n_regions
                (some (Region.nc x0 xf dx n_points Vnm rArr wArr hArr)),
              n_regions := st.n_regions + 1 }

/-- One update `S = dS if (i == 0 and j == 0) else scat_product(S, dS)` of the
wire branch (source lines 280 and 286).  Composing with an unassigned `S`
(Python `UnboundLocalError`) is the error case. -/
def wireCompose {N : ℕ} (isFirst : Bool) (acc : Option (SMat N)) (dS : SMat N) :
    Except Unit (SMat N) :=
  if isFirst then .ok dS
  else
    match acc with
    | some S => .ok (scat_product S dS)
    | none => .error ()

/-- One update `S = dS if (i == 0 and j == 0) else scat_product(dS, S)` of the
cone branch (source line 299): the new slice is the upstream argument. -/
def coneCompose {N : ℕ} (isFirst : Bool) (acc : Option (SMat N)) (dS : SMat N) :
    Except Unit (SMat N) :=
  if isFirst then .ok dS
  else
    match acc with
    | some S => .ok (scat_product dS S)
    | none => .error ()

/-- `for j in range(count)` starting at slice index `j`, threading the
accumulated optional scattering matrix and aborting on error. -/
def runSlices {N : ℕ} (comp : Option (SMat N) → ℕ → Except Unit (SMat N)) :
    ℕ → ℕ → Option (SMat N) → Except Unit (Option (SMat N))
  | _, 0, acc => .ok acc
  | j, k + 1, acc =>
    match comp acc j with
    | .error err => .error err
    | .ok S => runSlices comp (j + 1) k (some S)

/-- The wire-branch generator sum (source lines 274–276):
`M_EV + M_theta + M_Ax` with `dR = 0` and the region's fixed geometry. -/
def nwM (st : transport) (E dx r : ℝ) (w h : Option ℝ)
    (V : Option (NMat st.Nmodes)) : SMat st.Nmodes :=
  M_EV st.modes dx 0 E st.vf V + M_theta st.modes dx r 0 w h st.B_par
    + M_Ax st.modes dx w h st.B_perp

/-- The cone-branch generator sum for slice `j` (source lines 288–296):
`dr = r[j+1] - r[j]`, width/height sampled at `j` when present (the
`try/except TypeError` of the source), and the three generators rebuilt with
this slice's local geometry. -/
def ncM (st : transport) (E dx : ℝ) (V : Option (NMat st.Nmodes))
    (r : ℕ → ℝ) (w h : Option (ℕ → ℝ)) (j : ℕ) : SMat st.Nmodes :=
  let dr := r (j + 1) - r j
  let wj := w.map fun f => f j
  let hj := h.map fun f => f j
  M_EV st.modes dx dr E st.vf V + M_theta st.modes dx (r j) dr wj hj st.B_par
    + M_Ax st.modes dx wj hj st.B_perp

/-- One iteration of the region loop of `get_Landauer_conductance` (source
lines 272–299), for region `reg` with `i0 = (i == 0)`.  `expf` is the model
of `scipy.linalg.expm`.  In the undiscretized wire branch the source also
tests `np.isnan(S).any()`; idealised complex numbers have no NaN, so that
`OverflowError` branch is unreachable in this embedding. -/
def runRegion (st : transport) (expf : SMat st.Nmodes → SMat st.Nmodes)
    (E : ℝ) (i0 : Bool) (reg : Region st.Nmodes)
    (acc : Option (SMat st.Nmodes)) : Except Unit (Option (SMat st.Nmodes)) :=
  match reg with
  | .nw x0 xf dx n_points V r w h =>
    match n_points with
    | none =>
      let T := expf ((((xf - x0) / dx : ℝ) : ℂ) • nwM st E dx r w h V)
      (wireCompose i0 acc (transfer_to_scattering T)).map some
    | some n =>
      let dS := transfer_to_scattering (expf (nwM st E dx r w h V))
      runSlices (fun a j => wireCompose (i0 && decide (j = 0)) a dS) 0 n acc
  | .nc _x0 _xf dx n_points V r w h =>
    runSlices
      (fun a j =>
        coneCompose (i0 && decide (j = 0)) a
          (transfer_to_scattering (expf (ncM st E dx V r w h j))))
      0 (n_points - 1) acc

/-- `for i in range(0, n_regions)` of `get_Landauer_conductance`: iterate the
regions from index `i`, `k` of them remaining.  A missing dictionary entry is
a Python `KeyError`. -/
def runAll (st : transport) (expf : SMat st.Nmodes → SMat st.Nmodes) (E : ℝ) :
    ℕ → ℕ → Option (SMat st.Nmodes) → Except Unit (Option (SMat st.Nmodes))
  | _, 0, acc => .ok acc
  | i, k + 1, acc =>
    match st.geometry i with
    | none => .error ()
    | some reg =>
      match runRegion st expf E (decide (i = 0)) reg acc with
      | .error err => .error err
      | .ok acc2 => runAll st expf E (i + 1) k acc2

/-- The final accumulated scattering matrix of the traversal:
`.ok none` means `S` was never assigned. -/
def finalS (st : transport) (expf : SMat st.Nmodes → SMat st.Nmodes) (E : ℝ) :
    Except Unit (Option (SMat st.Nmodes)) :=
  runAll st expf E 0 st.n_regions none

/-- `transport.get_Landauer_conductance` (source lines 259–303):
`t = S[Nmodes:, 0:Nmodes]`, `G = np.trace(t.T.conj() @ t)`.  `none` models
the raised Python exception (an `UnboundLocalError` on `S` when no slice was
ever composed, or an error raised inside the loop). -/
def get_Landauer_conductance (st : transport)
    (expf : SMat st.Nmodes → SMat st.Nmodes) (E : ℝ) : Option ℂ :=
  match finalS st expf E with
  | .ok (some S) =>
    let t := S.toBlocks₂₁
    some (Matrix.trace (tᴴ * t))
  | _ => none

/-- `np.argsort`-then-reindex ascending sort of an eigenvalue list. -/
def sortR (l : List ℝ) : List ℝ := l.insertionSort (· ≤ ·)

/-- `transport.get_bands_nw` (source lines 305–368).  `eig` is the model of
`numpy.linalg.eigvalsh` as a deterministic eigenvalue-list function; the
momentum-space Kronecker products `np.kron(M, sigma)` (mode factor outer) are
`Matrix.kroneckerMap (· * ·)` on the product index.  For a wire the stored
radius is never `None`, so the source's perimeter branch `2*(w+h)` is dead
and `P = 2*pi*r` always.  When `B_perp != 0` and the wire has no stored
width/height the source crashes with a `TypeError` on `w / (w + h)`. -/
def get_bands_nw (st : transport) (region : ℕ) (k_range : List ℝ)
    (eig : Matrix (Fin st.Nmodes × Fin 2) (Fin st.Nmodes × Fin 2) ℂ → List ℝ) :
    Except String (List (List ℝ) × List ℝ) :=
  match st.geometry region with
  | none => Except.error "KeyError"
  | some (Region.nc _ _ _ _ _ _ _ _) =>
    Except.error "Can only calculate spectrum in a nanowire!"
  | some (Region.nw _x0 _xf _dx _np _V r w h) =>
    let P : ℝ := 2 * Real.pi * r
    let Ctheta : ℝ := 0.5 * nm ^ 2 * e * st.B_par / hbar
    let A_theta : ℝ :=
      if st.B_par ≠ 0 then
        match w, h with
        | some wv, some hv => Ctheta * (wv * hv) / Real.pi
        | _, _ => Ctheta * r ^ 2
      else 0
    let Mtheta : NMat st.Nmodes :=
      Matrix.diagonal fun i =>
        (((2 * Real.pi / P) * ((st.modes i : ℝ) - 1 / 2 + A_theta) : ℝ) : ℂ)
    let Hxtheta0 := (st.vf : ℂ) • Matrix.kroneckerMap (· * ·) Mtheta sigma_y
    let HxthetaE :
        Except String
          (Matrix (Fin st.Nmodes × Fin 2) (Fin st.Nmodes × Fin 2) ℂ) :=
      if st.B_perp ≠ 0 then
        match w, h with
        | some wv, some hv =>
          let r_aspect : ℝ := wv / (wv + hv)
          let Cx : ℝ := (nm ^ 2 / hbar) * e * st.B_perp * P / Real.pi ^ 2
          let Ax : NMat st.Nmodes := Matrix.of fun i j =>
            if (st.modes i - st.modes j) % 2 ≠ 0 then
              ((Cx * (-1 : ℝ) ^ ((st.modes i - st.modes j + 1) / 2)
                * Real.sin
                    ((st.modes i - st.modes j : ℝ) * Real.pi * r_aspect / 2)
                / ((st.modes i - st.modes j : ℝ)) ^ 2 : ℝ) : ℂ)
            else 0
          Except.ok (Hxtheta0 + (st.vf : ℂ) • Matrix.kroneckerMap (· * ·) Ax sigma_x)
        | _, _ => Except.error "TypeError"
      else Except.ok Hxtheta0
    match HxthetaE with
    | .error msg => .error msg
    | .ok Hxtheta =>
      let Ecols : List (List ℝ) :=
        k_range.map fun k =>
          sortR (eig (Matrix.kroneckerMap (· * ·)
            (Matrix.diagonal fun _ : Fin st.Nmodes => ((st.vf * k : ℝ) : ℂ))
            sigma_x + Hxtheta))
      let V := sortR (eig Hxtheta)
      Except.ok (Ecols, V)

/-- State-passing form of `get_Landauer_conductance`.  The Python method body
(source lines 259–303) contains no assignment to any attribute of `self`
(it only reads `self.geometry`, `self.modes`, `self.Nmodes`, `self.vf`,
`self.B_perp`, `self.B_par`), so its statement-by-statement state-passing
translation returns the state unchanged. -/
def get_Landauer_conductance_st (st : transport)
    (expf : SMat st.Nmodes → SMat st.Nmodes) (E : ℝ) :
    Option ℂ × transport :=
  (get_Landauer_conductance st expf E, st)

/-- State-passing form of `get_bands_nw`; the method body (source lines
305–368) likewise assigns no attribute of `self`. -/
def get_bands_nw_st (st : transport) (region : ℕ) (k_range : List ℝ)
    (eig : Matrix (Fin st.Nmodes × Fin 2) (Fin st.Nmodes × Fin 2) ℂ → List ℝ) :
    Except String (List (List ℝ) × List ℝ) × transport :=
  (get_bands_nw st region k_range eig, st)

/-- A region yields at least one slice in the traversal: a wire always does
(an undiscretized wire contributes one matrix, a discretized one `n_points`
slices with `n_points ≥ 1`), a cone only when `n_points ≥ 2` (its loop runs
`n_points - 1` times). -/
def producesSlice {N : ℕ} : Region N → Prop
  | .nw _ _ _ n_points _ _ _ _ =>
    match n_points with
    | none => True
    | some n => 1 ≤ n
  | .nc _ _ _ n_points _ _ _ _ => 2 ≤ n_points

/-- Concrete wire region `add_nw(x0=0, xf=1, n_points=1, r=1)` would store. -/
def wireReg1 : Region 1 := Region.nw 0 1 1 (some 1) none 1 none none

/-- Concrete one-wire configuration used by witnesses. -/
def cfg1 : transport :=
  ⟨1, 0, 0, 0, fun i => if i = 0 then some wireReg1 else none, 1⟩

/-- The single slice scattering matrix of `cfg1` at `E = 0` with the identity
standing in for `expm`. -/
def S1val : SMat 1 := transfer_to_scattering (nwM cfg1 0 1 1 none none none)

/-- The configuration produced by
`add_nc(x0=0, xf=1, n_points=1, r1=1, r2=1)` on a fresh `transport`:
one nanocone region discretised by a single point. -/
def cfg0 : transport :=
  match add_nc (transport.init 1 0 0 0) 0 1 1 none none (some 1) (some 1) none
      none none none with
  | .ok st => st
  | .error err => err.2

/-- Concrete `2×2` scattering matrix `[[0, 1], [1, 1]]` used to exhibit
non-commutativity of `scat_product`. -/
def ncEx1 : SMat 1 := Matrix.fromBlocks 0 1 1 1

/-- Concrete `2×2` scattering matrix `[[1/2, 1], [1, 0]]` used to exhibit
non-commutativity of `scat_product`. -/
def ncEx2 : SMat 1 := Matrix.fromBlocks ((1 / 2 : ℂ) • 1) 1 1 0

/-- Concrete `2×2` scattering matrix `[[0, 1], [1, 0]]` (perfect
transmission), a fixed point of `scat_product`, used by the associativity
witness. -/
def swapEx : SMat 1 := Matrix.fromBlocks 0 1 1 0

end

namespace C1helpers

open Matrix Complex

theorem wireCompose_some_ok {N : ℕ} (b : Bool) (S0 dS : SMat N) :
    wireCompose b (some S0) dS = .ok (if b then dS else scat_product S0 dS) := by
  cases b <;> rfl

theorem coneCompose_some_ok {N : ℕ} (b : Bool) (S0 dS : SMat N) :
    coneCompose b (some S0) dS = .ok (if b then dS else scat_product dS S0) := by
  cases b <;> rfl

theorem runSlices_some {N : ℕ}
    (comp : Option (SMat N) → ℕ → Except Unit (SMat N))
    (hcomp : ∀ (S0 : SMat N) (j : ℕ), ∃ S1, comp (some S0) j = .ok S1) :
    ∀ (k j : ℕ) (S0 : SMat N),
      ∃ S1, runSlices comp j k (some S0) = .ok (some S1) := by
  intro k
  induction k with
  | zero => intro j S0; exact ⟨S0, rfl⟩
  | succ k ih =>
    intro j S0
    obtain ⟨S1, hS1⟩ := hcomp S0 j
    obtain ⟨S2, hS2⟩ := ih (j + 1) S1
    exact ⟨S2, by simp only [runSlices, hS1]; exact hS2⟩

theorem runRegion_some (st : transport) (expf : SMat st.Nmodes → SMat st.Nmodes)
    (E : ℝ) (i0 : Bool) (reg : Region st.Nmodes) (S0 : SMat st.Nmodes) :
    ∃ S1, runRegion st expf E i0 reg (some S0) = .ok (some S1) := by
  cases reg with
  | nw x0 xf dx n_points V r w h =>
    cases n_points with
    | none => cases i0 <;> exact ⟨_, rfl⟩
    | some n =>
      obtain ⟨S1, hS1⟩ := runSlices_some
        (fun a j => wireCompose (i0 && decide (j = 0)) a
          (transfer_to_scattering (expf (nwM st E dx r w h V))))
        (fun S0a j => ⟨_, wireCompose_some_ok _ S0a _⟩) n 0 S0
      exact ⟨S1, hS1⟩
  | nc x0 xf dx n_points V r w h =>
    obtain ⟨S1, hS1⟩ := runSlices_some
      (fun a j => coneCompose (i0 && decide (j = 0)) a
        (transfer_to_scattering (expf (ncM st E dx V r w h j))))
      (fun S0a j => ⟨_, coneCompose_some_ok _ S0a _⟩) (n_points - 1) 0 S0
    exact ⟨S1, hS1⟩

theorem runRegion_first (st : transport) (expf : SMat st.Nmodes → SMat st.Nmodes)
    (E : ℝ) (reg : Region st.Nmodes) (hps : producesSlice reg) :
    ∃ S1, runRegion st expf E true reg none = .ok (some S1) := by
  cases reg with
  | nw x0 xf dx n_points V r w h =>
    cases n_points with
    | none => exact ⟨_, rfl⟩
    | some n =>
      simp only [producesSlice] at hps
      obtain ⟨m, rfl⟩ : ∃ m, n = m + 1 := ⟨n - 1, by omega⟩
      obtain ⟨S1, hS1⟩ := runSlices_some
        (fun a j => wireCompose (true && decide (j = 0)) a
          (transfer_to_scattering (expf (nwM st E dx r w h V))))
        (fun S0a j => ⟨_, wireCompose_some_ok _ S0a _⟩) m 1
        (transfer_to_scattering (expf (nwM st E dx r w h V)))
      refine ⟨S1, ?_⟩
      simp only [runRegion, runSlices]
      exact hS1
  | nc x0 xf dx n_points V r w h =>
    simp only [producesSlice] at hps
    obtain ⟨m, hm⟩ : ∃ m, n_points - 1 = m + 1 := ⟨n_points - 2, by omega⟩
    obtain ⟨S1, hS1⟩ := runSlices_some
      (fun a j => coneCompose (true && decide (j = 0)) a
        (transfer_to_scattering (expf (ncM st E dx V r w h j))))
      (fun S0a j => ⟨_, coneCompose_some_ok _ S0a _⟩) m 1
      (transfer_to_scattering (expf (ncM st E dx V r w h 0)))
    refine ⟨S1, ?_⟩
    simp only [runRegion, hm, runSlices]
    exact hS1

theorem runAll_some (st : transport) (expf : SMat st.Nmodes → SMat st.Nmodes)
    (E : ℝ) :
    ∀ (k i : ℕ) (S0 : SMat st.Nmodes),
      (∀ i2, i ≤ i2 → i2 < i + k → (st.geometry i2).isSome) →
      ∃ S1, runAll st expf E i k (some S0) = .ok (some S1) := by
  intro k
  induction k with
  | zero => intro i S0 _; exact ⟨S0, rfl⟩
  | succ k ih =>
    intro i S0 hwf
    have h0 : (st.geometry i).isSome = true := hwf i le_rfl (by omega)
    obtain ⟨reg, hreg⟩ := Option.isSome_iff_exists.mp h0
    obtain ⟨S1, hS1⟩ := runRegion_some st expf E (decide (i = 0)) reg S0
    obtain ⟨S2, hS2⟩ := ih (i + 1) S1 fun i2 h1 h2 => hwf i2 (by omega) (by omega)
    exact ⟨S2, by simp only [runAll, hreg, hS1]; exact hS2⟩

theorem trace_tdagger_t {N : ℕ} (t : NMat N) :
    Matrix.trace (tᴴ * t) = ((∑ j, ∑ i, Complex.normSq (t i j) : ℝ) : ℂ) := by
  calc Matrix.trace (tᴴ * t) = ∑ j, ∑ i, star (t i j) * t i j := by
        simp [Matrix.trace, Matrix.mul_apply, Matrix.conjTranspose_apply,
          Matrix.diag]
    _ = ∑ j, ∑ i, ((Complex.normSq (t i j) : ℝ) : ℂ) := by
        refine Finset.sum_congr rfl fun j _ => Finset.sum_congr rfl fun i _ => ?_
        rw [Complex.star_def, ← Complex.normSq_eq_conj_mul_self]
    _ = ((∑ j, ∑ i, Complex.normSq (t i j) : ℝ) : ℂ) := by norm_cast

theorem trace_tdagger_t_real_nonneg {N : ℕ} (t : NMat N) :
    (Matrix.trace (tᴴ * t)).im = 0 ∧ 0 ≤ (Matrix.trace (tᴴ * t)).re := by
  rw [trace_tdagger_t]
  refine ⟨Complex.ofReal_im _, ?_⟩
  rw [Complex.ofReal_re]
  exact Finset.sum_nonneg fun j _ =>
    Finset.sum_nonneg fun i _ => Complex.normSq_nonneg _

end C1helpers

/-- C1 (amended): for every well-formed configuration (every indexed region
present, non-empty region list) whose first region yields at least one slice,
and every Fermi energy `E` and exponential model `expf`,
`get_Landauer_conductance` returns `Tr(tᴴ t)` where `t` is the bottom-left
`N×N` transmission block of the final composed scattering matrix `S`, and
this value is a real non-negative scalar (zero imaginary part, non-negative
real part). -/
theorem claim1_conductance_trace (st : transport)
    (expf : SMat st.Nmodes → SMat st.Nmodes) (E : ℝ)
    (hne : 0 < st.n_regions)
    (hwf : ∀ i, i < st.n_regions → (st.geometry i).isSome)
    (hfirst : ∀ reg0, st.geometry 0 = some reg0 → producesSlice reg0) :
    ∃ S : SMat st.Nmodes, finalS st expf E = .ok (some S)
      ∧ get_Landauer_conductance st expf E
          = some (Matrix.trace ((S.toBlocks₂₁)ᴴ * S.toBlocks₂₁))
      ∧ (Matrix.trace ((S.toBlocks₂₁)ᴴ * S.toBlocks₂₁)).im = 0
      ∧ 0 ≤ (Matrix.trace ((S.toBlocks₂₁)ᴴ * S.toBlocks₂₁)).re := by
  obtain ⟨k, hk⟩ : ∃ k, st.n_regions = k + 1 := ⟨st.n_regions - 1, by omega⟩
  obtain ⟨reg0, hreg0⟩ := Option.isSome_iff_exists.mp (hwf 0 hne)
  obtain ⟨S0, hS0⟩ := C1helpers.runRegion_first st expf E reg0 (hfirst reg0 hreg0)
  obtain ⟨S, hS⟩ := C1helpers.runAll_some st expf E k 1 S0
    fun i2 h1 h2 => hwf i2 (by omega)
  have hfin : finalS st expf E = .ok (some S) := by
    unfold finalS
    rw [hk]
    simp only [runAll, hreg0, decide_True, hS0, Nat.zero_add]
    exact hS
  refine ⟨S, hfin, ?_, C1helpers.trace_tdagger_t_real_nonneg _⟩
  unfold get_Landauer_conductance
  rw [hfin]

/-- C1 counterexample: the claim as stated fails.  The configuration built by
`add_nc(x0=0, xf=1, n_points=1, r1=1, r2=1)` on a fresh `transport` is valid
(its region list is non-empty: one region, present in the dictionary), yet
`get_Landauer_conductance` composes zero slices — the cone loop runs
`n_points - 1 = 0` times — so `S` is never assigned and the Python code
raises `UnboundLocalError` (modelled by `none`) instead of returning
`Tr(tᴴ t)`. -/
theorem claim1_counterexample :
    add_nc (transport.init 1 0 0 0) 0 1 1 none none (some 1) (some 1) none
        none none none = .ok cfg0
      ∧ cfg0.n_regions = 1
      ∧ (cfg0.geometry 0).isSome = true
      ∧ get_Landauer_conductance cfg0 (fun M => M) 0 = none := by
  exact ⟨rfl, rfl, rfl, rfl⟩

/-- C1 witness: the amended claim instantiated at the concrete one-wire
configuration `cfg1` with `E = 0` and the identity in place of `expm`. -/
theorem claim1_witness :
    (0 < cfg1.n_regions)
    ∧ (∀ i, i < cfg1.n_regions → (cfg1.geometry i).isSome)
    ∧ (∀ reg0, cfg1.geometry 0 = some reg0 → producesSlice reg0)
    ∧ (∃ S : SMat cfg1.Nmodes, finalS cfg1 (fun M => M) 0 = .ok (some S)
        ∧ get_Landauer_conductance cfg1 (fun M => M) 0
            = some (Matrix.trace ((S.toBlocks₂₁)ᴴ * S.toBlocks₂₁))
        ∧ (Matrix.trace ((S.toBlocks₂₁)ᴴ * S.toBlocks₂₁)).im = 0
        ∧ 0 ≤ (Matrix.trace ((S.toBlocks₂₁)ᴴ * S.toBlocks₂₁)).re) := by
  have h1 : 0 < cfg1.n_regions := by norm_num [cfg1]
  have h2 : ∀ i, i < cfg1.n_regions → (cfg1.geometry i).isSome := by
    intro i hi
    have : i = 0 := by
      have : cfg1.n_regions = 1 := rfl
      omega
    subst this
    rfl
  have h3 : ∀ reg0, cfg1.geometry 0 = some reg0 → producesSlice reg0 := by
    intro reg0 h
    have hr : reg0 = wireReg1 := by
      have : cfg1.geometry 0 = some wireReg1 := rfl
      rw [this] at h
      exact (Option.some_inj.mp h).symm
    subst hr
    show (1 : ℕ) ≤ 1
    exact le_refl 1
  exact ⟨h1, h2, h3, claim1_conductance_trace cfg1 (fun M => M) 0 h1 h2 h3⟩

namespace C2helpers

theorem runSlices_wire_iterate {N : ℕ} (dS : SMat N) :
    ∀ (k j : ℕ) (S0 : SMat N),
      runSlices (fun a j2 => wireCompose (false && decide (j2 = 0)) a dS) j k
          (some S0)
        = .ok (some ((fun S => scat_product S dS)^[k] S0)) := by
  intro k
  induction k with
  | zero => intro j S0; rfl
  | succ k ih =>
    intro j S0
    have hstep : wireCompose (false && decide (j = 0)) (some S0) dS
        = .ok (scat_product S0 dS) := by
      rw [Bool.false_and]
      rfl
    simp only [runSlices, hstep]
    rw [ih (j + 1) (scat_product S0 dS), Function.iterate_succ_apply]

theorem runSlices_cone_foldl {N : ℕ} (dSf : ℕ → SMat N) :
    ∀ (k j : ℕ) (S0 : SMat N),
      runSlices (fun a j2 => coneCompose (false && decide (j2 = 0)) a (dSf j2))
          j k (some S0)
        = .ok (some ((List.range' j k).foldl
            (fun S j2 => scat_product (dSf j2) S) S0)) := by
  intro k
  induction k with
  | zero => intro j S0; rfl
  | succ k ih =>
    intro j S0
    have hstep : coneCompose (false && decide (j = 0)) (some S0) (dSf j)
        = .ok (scat_product (dSf j) S0) := by
      rw [Bool.false_and]
      rfl
    simp only [runSlices, hstep]
    rw [ih (j + 1) (scat_product (dSf j) S0), List.range'_succ,
      List.foldl_cons]

end C2helpers

/-- C2: in the region loop of `get_Landauer_conductance`, a (non-first) wire
region with a requested discretization count `n` composes the single
per-step scattering matrix `dS = transfer_to_scattering(expm(M))` into the
accumulator exactly `n` times, each time with the accumulator as the
upstream (first) argument of `scat_product`; a (non-first) cone region with
`n` sample points iterates over exactly `n - 1` adjacent sample pairs and
composes each new slice matrix as the upstream (first) argument, i.e. with
the opposite argument order `scat_product(dS, S)`. -/
theorem claim2_compose_orders :
    (∀ (st : transport) (expf : SMat st.Nmodes → SMat st.Nmodes)
        (E x0 xf dx : ℝ) (n : ℕ) (V : Option (NMat st.Nmodes)) (r : ℝ)
        (w h : Option ℝ) (S0 : SMat st.Nmodes),
      runRegion st expf E false (Region.nw x0 xf dx (some n) V r w h) (some S0)
        = .ok (some ((fun S => scat_product S
            (transfer_to_scattering (expf (nwM st E dx r w h V))))^[n] S0)))
    ∧ (∀ (st : transport) (expf : SMat st.Nmodes → SMat st.Nmodes)
        (E x0 xf dx : ℝ) (n : ℕ) (V : Option (NMat st.Nmodes)) (r : ℕ → ℝ)
        (w h : Option (ℕ → ℝ)) (S0 : SMat st.Nmodes),
      runRegion st expf E false (Region.nc x0 xf dx n V r w h) (some S0)
        = .ok (some ((List.range (n - 1)).foldl
            (fun S j => scat_product
              (transfer_to_scattering (expf (ncM st E dx V r w h j))) S) S0))) := by
  constructor
  · intro st expf E x0 xf dx n V r w h S0
    simp only [runRegion]
    exact C2helpers.runSlices_wire_iterate _ n 0 S0
  · intro st expf E x0 xf dx n V r w h S0
    simp only [runRegion]
    rw [List.range_eq_range']
    exact C2helpers.runSlices_cone_foldl _ (n - 1) 0 S0

namespace C3helpers

open Matrix

theorem scat_product_toBlocks11 {N : ℕ} (s1 s2 : SMat N) :
    (scat_product s1 s2).toBlocks₁₁ = (SB.comp (SB.ofMat s1) (SB.ofMat s2)).r := by
  rw [scat_product_eq_comp, SB.toMat, Matrix.toBlocks_fromBlocks₁₁]

theorem scat_product_toBlocks22 {N : ℕ} (s1 s2 : SMat N) :
    (scat_product s1 s2).toBlocks₂₂ = (SB.comp (SB.ofMat s1) (SB.ofMat s2)).rp := by
  rw [scat_product_eq_comp, SB.toMat, Matrix.toBlocks_fromBlocks₂₂]

theorem matInv_one {N : ℕ} : matInv (1 : NMat N) = 1 := by
  simp [matInv, Matrix.det_one, Matrix.adjugate_one]

theorem one_sub_smul_one {N : ℕ} (c : ℂ) :
    (1 : NMat N) - c • 1 = (1 - c) • 1 := by
  rw [sub_smul, one_smul]

theorem matInv_smul_one1 (c : ℂ) :
    matInv (c • (1 : NMat 1)) = c⁻¹ • 1 := by
  unfold matInv
  rw [Matrix.adjugate_fin_one, Matrix.det_fin_one]
  simp [Matrix.smul_apply, Matrix.one_apply_eq]

end C3helpers

/-- C3: for any three same-size `2N×2N` scattering matrices for which every
inverse inside `scat_product` exists (in either grouping), the Redheffer star
product is associative: `scat_product (scat_product s1 s2) s3 =
scat_product s1 (scat_product s2 s3)`; and it is not commutative: there are
same-size `s1, s2` with `scat_product s1 s2 ≠ scat_product s2 s1`. -/
theorem claim3_scat_product_assoc_not_comm :
    (∀ (n : ℕ) (s1 s2 s3 : SMat n),
      IsUnit ((1 : NMat n) - s1.toBlocks₂₂ * s2.toBlocks₁₁).det →
      IsUnit ((1 : NMat n) - s2.toBlocks₁₁ * s1.toBlocks₂₂).det →
      IsUnit ((1 : NMat n) - s2.toBlocks₂₂ * s3.toBlocks₁₁).det →
      IsUnit ((1 : NMat n) - s3.toBlocks₁₁ * s2.toBlocks₂₂).det →
      IsUnit ((1 : NMat n)
        - (scat_product s1 s2).toBlocks₂₂ * s3.toBlocks₁₁).det →
      IsUnit ((1 : NMat n)
        - s3.toBlocks₁₁ * (scat_product s1 s2).toBlocks₂₂).det →
      IsUnit ((1 : NMat n)
        - s1.toBlocks₂₂ * (scat_product s2 s3).toBlocks₁₁).det →
      IsUnit ((1 : NMat n)
        - (scat_product s2 s3).toBlocks₁₁ * s1.toBlocks₂₂).det →
      scat_product (scat_product s1 s2) s3
        = scat_product s1 (scat_product s2 s3))
    ∧ ∃ s1 s2 : SMat 1, scat_product s1 s2 ≠ scat_product s2 s1 := by
  constructor
  · intro n s1 s2 s3 hE _hE2 hF _hF2 hGl _hGl2 hGr _hGr2
    rw [C3helpers.scat_product_toBlocks22] at hGl
    rw [C3helpers.scat_product_toBlocks11] at hGr
    calc scat_product (scat_product s1 s2) s3
        = (SB.comp (SB.ofMat (scat_product s1 s2)) (SB.ofMat s3)).toMat :=
          scat_product_eq_comp _ _
      _ = (SB.comp (SB.comp (SB.ofMat s1) (SB.ofMat s2))
            (SB.ofMat s3)).toMat := by
          rw [scat_product_eq_comp s1 s2, SB.ofMat_toMat]
      _ = (SB.comp (SB.ofMat s1)
            (SB.comp (SB.ofMat s2) (SB.ofMat s3))).toMat := by
          rw [SB.comp_assoc (SB.ofMat s1) (SB.ofMat s2) (SB.ofMat s3)
            hE hF hGl hGr]
      _ = (SB.comp (SB.ofMat s1)
            (SB.ofMat (scat_product s2 s3))).toMat := by
          rw [scat_product_eq_comp s2 s3, SB.ofMat_toMat]
      _ = scat_product s1 (scat_product s2 s3) :=
          (scat_product_eq_comp _ _).symm
  · refine ⟨ncEx1, ncEx2, ?_⟩
    have e1 : (scat_product ncEx1 ncEx2) (Sum.inl 0) (Sum.inl 0)
        = 1 := by
      simp [scat_product, matInv, ncEx1, ncEx2, Matrix.toBlocks_fromBlocks₁₁,
        Matrix.toBlocks_fromBlocks₁₂, Matrix.toBlocks_fromBlocks₂₁,
        Matrix.toBlocks_fromBlocks₂₂, Matrix.fromBlocks_apply₁₁,
        Matrix.det_fin_one, Matrix.adjugate_fin_one, Matrix.mul_apply,
        Matrix.smul_apply, Matrix.sub_apply, Matrix.add_apply,
        Matrix.one_apply, Fin.sum_univ_one]
      norm_num
    have e2 : (scat_product ncEx2 ncEx1) (Sum.inl 0) (Sum.inl 0) = 1 / 2 := by
      simp [scat_product, matInv, ncEx1, ncEx2, Matrix.toBlocks_fromBlocks₁₁,
        Matrix.toBlocks_fromBlocks₁₂, Matrix.toBlocks_fromBlocks₂₁,
        Matrix.toBlocks_fromBlocks₂₂, Matrix.fromBlocks_apply₁₁,
        Matrix.det_fin_one, Matrix.adjugate_fin_one, Matrix.mul_apply,
        Matrix.smul_apply, Matrix.sub_apply, Matrix.add_apply,
        Matrix.one_apply, Fin.sum_univ_one]
    intro hEq
    rw [hEq, e2] at e1
    norm_num at e1

/-- C3 witness: the associativity instance at the concrete `2×2` scattering
matrix `[[0, 1], [1, 0]]` (three copies), all eight kernels being the
identity. -/
theorem claim3_witness :
    IsUnit ((1 : NMat 1) - swapEx.toBlocks₂₂ * swapEx.toBlocks₁₁).det
    ∧ IsUnit ((1 : NMat 1) - swapEx.toBlocks₁₁ * swapEx.toBlocks₂₂).det
    ∧ IsUnit ((1 : NMat 1)
        - (scat_product swapEx swapEx).toBlocks₂₂ * swapEx.toBlocks₁₁).det
    ∧ IsUnit ((1 : NMat 1)
        - swapEx.toBlocks₁₁ * (scat_product swapEx swapEx).toBlocks₂₂).det
    ∧ IsUnit ((1 : NMat 1)
        - swapEx.toBlocks₂₂ * (scat_product swapEx swapEx).toBlocks₁₁).det
    ∧ IsUnit ((1 : NMat 1)
        - (scat_product swapEx swapEx).toBlocks₁₁ * swapEx.toBlocks₂₂).det
    ∧ scat_product (scat_product swapEx swapEx) swapEx
        = scat_product swapEx (scat_product swapEx swapEx) := by
  have hS : scat_product swapEx swapEx = swapEx := by
    simp [scat_product, swapEx, C3helpers.matInv_one,
      Matrix.toBlocks_fromBlocks₁₁, Matrix.toBlocks_fromBlocks₁₂,
      Matrix.toBlocks_fromBlocks₂₁, Matrix.toBlocks_fromBlocks₂₂]
  have hb11 : swapEx.toBlocks₁₁ = 0 := by
    unfold swapEx
    exact Matrix.toBlocks_fromBlocks₁₁ _ _ _ _
  have hb22 : swapEx.toBlocks₂₂ = 0 := by
    unfold swapEx
    exact Matrix.toBlocks_fromBlocks₂₂ _ _ _ _
  have hu0 : IsUnit ((1 : NMat 1) - (0 : NMat 1) * 0).det := by simp
  have h1 : IsUnit ((1 : NMat 1)
      - swapEx.toBlocks₂₂ * swapEx.toBlocks₁₁).det := by
    rw [hb22, hb11]; exact hu0
  have h2 : IsUnit ((1 : NMat 1)
      - swapEx.toBlocks₁₁ * swapEx.toBlocks₂₂).det := by
    rw [hb22, hb11]; exact hu0
  have h5 : IsUnit ((1 : NMat 1)
      - (scat_product swapEx swapEx).toBlocks₂₂ * swapEx.toBlocks₁₁).det := by
    rw [hS, hb22, hb11]; exact hu0
  have h6 : IsUnit ((1 : NMat 1)
      - swapEx.toBlocks₁₁ * (scat_product swapEx swapEx).toBlocks₂₂).det := by
    rw [hS, hb22, hb11]; exact hu0
  have h7 : IsUnit ((1 : NMat 1)
      - swapEx.toBlocks₂₂ * (scat_product swapEx swapEx).toBlocks₁₁).det := by
    rw [hS, hb22, hb11]; exact hu0
  have h8 : IsUnit ((1 : NMat 1)
      - (scat_product swapEx swapEx).toBlocks₁₁ * swapEx.toBlocks₂₂).det := by
    rw [hS, hb22, hb11]; exact hu0
  exact ⟨h1, h2, h5, h6, h7, h8,
    claim3_scat_product_assoc_not_comm.1 1 swapEx swapEx swapEx
      h1 h2 h1 h2 h5 h6 h7 h8⟩

/-- C4: for every `2N×2N` transfer matrix whose top-left and bottom-right
`N×N` blocks are invertible, `transfer_to_scattering` returns the block
matrix `[[r, t'], [t, r']]` with `t = (inv top-left)ᴴ`,
`t' = inv bottom-right`, `r = -t' · bottom-left`, `r' = top-right · t'`. -/
theorem claim4_transfer_to_scattering_blocks :
    ∀ (N : ℕ) (T : SMat N),
      IsUnit T.toBlocks₁₁.det → IsUnit T.toBlocks₂₂.det →
      transfer_to_scattering T
        = Matrix.fromBlocks (-(T.toBlocks₂₂⁻¹ * T.toBlocks₂₁)) T.toBlocks₂₂⁻¹
            ((T.toBlocks₁₁⁻¹)ᴴ) (T.toBlocks₁₂ * T.toBlocks₂₂⁻¹) := by
  intro N T _h1 _h2
  simp only [transfer_to_scattering, matInv_eq_inv, neg_mul]

/-- C4 witness: the identity transfer matrix, whose diagonal blocks are
invertible; its scattering matrix is the stated block assembly. -/
theorem claim4_witness :
    IsUnit (1 : SMat 1).toBlocks₁₁.det ∧ IsUnit (1 : SMat 1).toBlocks₂₂.det
    ∧ transfer_to_scattering (1 : SMat 1)
        = Matrix.fromBlocks
            (-(((1 : SMat 1).toBlocks₂₂)⁻¹ * (1 : SMat 1).toBlocks₂₁))
            ((1 : SMat 1).toBlocks₂₂)⁻¹ ((((1 : SMat 1).toBlocks₁₁)⁻¹)ᴴ)
            ((1 : SMat 1).toBlocks₁₂ * ((1 : SMat 1).toBlocks₂₂)⁻¹) := by
  have h11 : (1 : SMat 1).toBlocks₁₁ = 1 := by
    rw [← Matrix.fromBlocks_one]
    exact Matrix.toBlocks_fromBlocks₁₁ _ _ _ _
  have h22 : (1 : SMat 1).toBlocks₂₂ = 1 := by
    rw [← Matrix.fromBlocks_one]
    exact Matrix.toBlocks_fromBlocks₂₂ _ _ _ _
  have hu1 : IsUnit (1 : SMat 1).toBlocks₁₁.det := by rw [h11]; simp
  have hu2 : IsUnit (1 : SMat 1).toBlocks₂₂.det := by rw [h22]; simp
  exact ⟨hu1, hu2, claim4_transfer_to_scattering_blocks 1 1 hu1 hu2⟩

/-- C5: the vector-potential matrix built by `M_Ax` (with width and height
given) has exactly zero entries between the two spin blocks and at every
position of even mode difference (the diagonal included); its possibly
nonzero entries couple modes of odd difference `m = n1 - n2` with value
`dx · C · (-1)^((m+1)/2) · sin(m·π·aspect/2) / m²`, where
`C = -i (nm²/ħ) e B_perp P / π²`, `P = 2(w+h)`, `aspect = w/(w+h)`; and when
`B_perp = 0` the returned contribution is identically zero (also when width
or height is absent). -/
theorem claim5_M_Ax_structure :
    (∀ (N : ℕ) (modes : Fin N → ℤ) (dx w h B : ℝ) (i j : Fin N),
      M_Ax modes dx (some w) (some h) B (Sum.inl i) (Sum.inr j) = 0
      ∧ M_Ax modes dx (some w) (some h) B (Sum.inr i) (Sum.inl j) = 0)
    ∧ (∀ (N : ℕ) (modes : Fin N → ℤ) (dx w h B : ℝ) (i j : Fin N),
      (modes i - modes j) % 2 = 0 →
      M_Ax modes dx (some w) (some h) B (Sum.inl i) (Sum.inl j) = 0
      ∧ M_Ax modes dx (some w) (some h) B (Sum.inr i) (Sum.inr j) = 0)
    ∧ (∀ (N : ℕ) (modes : Fin N → ℤ) (dx w h B : ℝ) (i j : Fin N),
      (modes i - modes j) % 2 ≠ 0 →
      M_Ax modes dx (some w) (some h) B (Sum.inl i) (Sum.inl j)
        = (dx : ℂ) * (-Complex.I
            * (((nm ^ 2 / hbar) * e * B * (2 * (w + h)) / Real.pi ^ 2 : ℝ) : ℂ)
            * (-1 : ℂ) ^ ((modes i - modes j + 1) / 2)
            * ((Real.sin
                ((modes i - modes j : ℝ) * Real.pi * (w / (w + h)) / 2) : ℝ) : ℂ)
            / (((modes i - modes j : ℝ) ^ 2 : ℝ) : ℂ))
      ∧ M_Ax modes dx (some w) (some h) B (Sum.inr i) (Sum.inr j)
        = (dx : ℂ) * (-Complex.I
            * (((nm ^ 2 / hbar) * e * B * (2 * (w + h)) / Real.pi ^ 2 : ℝ) : ℂ)
            * (-1 : ℂ) ^ ((modes i - modes j + 1) / 2)
            * ((Real.sin
                ((modes i - modes j : ℝ) * Real.pi * (w / (w + h)) / 2) : ℝ) : ℂ)
            / (((modes i - modes j : ℝ) ^ 2 : ℝ) : ℂ)))
    ∧ (∀ (N : ℕ) (modes : Fin N → ℤ) (dx : ℝ) (w h : Option ℝ) (B : ℝ),
      B = 0 → M_Ax modes dx w h B = 0) := by
  refine ⟨?_, ?_, ?_, ?_⟩
  · intro N modes dx w h B i j
    constructor <;>
      simp [M_Ax, kron2_sigma_0, Matrix.smul_apply, Matrix.fromBlocks_apply₁₂,
        Matrix.fromBlocks_apply₂₁, Matrix.zero_apply]
  · intro N modes dx w h B i j heven
    constructor <;>
    · by_cases hB : B = 0 <;>
        simp [M_Ax, kron2_sigma_0, Matrix.smul_apply, Matrix.fromBlocks_apply₁₁,
          Matrix.fromBlocks_apply₂₂, Matrix.zero_apply, Matrix.of_apply, heven,
          hB]
  · intro N modes dx w h B i j hodd
    by_cases hB : B = 0
    · subst hB
      constructor <;>
      · simp [M_Ax, kron2_sigma_0, Matrix.smul_apply, Matrix.fromBlocks_apply₁₁,
          Matrix.fromBlocks_apply₂₂, Matrix.zero_apply]
    · constructor <;>
      · simp [M_Ax, kron2_sigma_0, Matrix.smul_apply, Matrix.fromBlocks_apply₁₁,
          Matrix.fromBlocks_apply₂₂, Matrix.of_apply, hodd, hB]
  · intro N modes dx w h B hB
    subst hB
    cases w <;> cases h <;>
      simp [M_Ax, kron2_sigma_0, Matrix.fromBlocks_zero]

/-- C5 witness: concrete instances — cross-spin entry, even difference
(`m = 0`, the diagonal), odd difference (`m = 1`), and the zero-field case —
of the mode set `{0, 1}` with `dx = w = h = B_perp = 1`. -/
theorem claim5_witness :
    (M_Ax (fun i : Fin 2 => (i : ℤ)) 1 (some 1) (some 1) 1 (Sum.inl 0)
        (Sum.inr 1) = 0)
    ∧ ((fun i : Fin 2 => (i : ℤ)) 0 - (fun i : Fin 2 => (i : ℤ)) 0) % 2 = 0
    ∧ (M_Ax (fun i : Fin 2 => (i : ℤ)) 1 (some 1) (some 1) 1 (Sum.inl 0)
        (Sum.inl 0) = 0)
    ∧ ((fun i : Fin 2 => (i : ℤ)) 1 - (fun i : Fin 2 => (i : ℤ)) 0) % 2 ≠ 0
    ∧ (M_Ax (fun i : Fin 2 => (i : ℤ)) 1 (some 1) (some 1) 1 (Sum.inl 1)
        (Sum.inl 0)
      = ((1 : ℝ) : ℂ) * (-Complex.I
          * (((nm ^ 2 / hbar) * e * (1 : ℝ) * (2 * ((1 : ℝ) + 1))
              / Real.pi ^ 2 : ℝ) : ℂ)
          * (-1 : ℂ) ^ ((((1 : Fin 2) : ℤ) - ((0 : Fin 2) : ℤ) + 1) / 2)
          * ((Real.sin ((((1 : Fin 2) : ℤ) - ((0 : Fin 2) : ℤ) : ℝ) * Real.pi
              * ((1 : ℝ) / (1 + 1)) / 2) : ℝ) : ℂ)
          / (((((1 : Fin 2) : ℤ) - ((0 : Fin 2) : ℤ) : ℝ) ^ 2 : ℝ) : ℂ)))
    ∧ ((0 : ℝ) = 0
      ∧ M_Ax (fun i : Fin 2 => (i : ℤ)) 1 (some 1) (some 1) 0 = 0) := by
  refine ⟨?_, ?_, ?_, ?_, ?_, rfl, ?_⟩
  · exact (claim5_M_Ax_structure.1 2 _ 1 1 1 1 0 1).1
  · decide
  · exact (claim5_M_Ax_structure.2.1 2 _ 1 1 1 1 0 0 (by decide)).1
  · decide
  · exact (claim5_M_Ax_structure.2.2.1 2 _ 1 1 1 1 1 0 (by decide)).1
  · exact claim5_M_Ax_structure.2.2.2 2 _ 1 (some 1) (some 1) 0 rfl

theorem boundary_check_error (st : transport) (x0 : ℝ)
    (err : String × transport) (h : boundary_check st x0 = .error err) :
    err.2 = st := by
  unfold boundary_check at h
  split at h
  · split at h
    · injection h with h1
      rw [← h1]
    · split at h
      · injection h with h1
        rw [← h1]
      · exact Except.noConfusion h
  · exact Except.noConfusion h

/-- C7: every configuration error fails immediately with a descriptive fault:
a region whose `x0` differs from the previous region's `xf` raises
`Regions dont match`; a region with neither radius nor (width, height)
raises rather than succeeding; a potential matrix whose shape is not `(N, N)`
raises the `Vnm` assertion; composing two scattering matrices of different
shapes raises the size error. -/
theorem claim7_config_errors :
    (∀ (st : transport) (x0 xf : ℝ) (Vnm : Option (NMat st.Nmodes))
        (n_points : Option ℕ) (r w h : Option ℝ) (prev : Region st.Nmodes),
      st.n_regions ≠ 0 → st.geometry (st.n_regions - 1) = some prev →
      x0 ≠ prev.xf →
      add_nw st x0 xf Vnm n_points r w h
        = .error ("Regions dont match", st))
    ∧ (∀ (st : transport) (x0 xf : ℝ) (Vnm : Option (NMat st.Nmodes))
        (n_points : Option ℕ) (w h : Option ℝ),
      w = none ∨ h = none →
      ∀ st2, add_nw st x0 xf Vnm n_points none w h ≠ .ok st2)
    ∧ (∀ (N : ℕ) (modes : Fin N → ℤ) (dx dR E vf : ℝ) (p q : ℕ)
        (V : Matrix (Fin p) (Fin q) ℂ),
      ¬(p = N ∧ q = N) →
      M_EV_np modes dx dR E vf (some ⟨p, q, V⟩)
        = .error "Vnm must be the Fourier transform matrix of V")
    ∧ (∀ s1 s2 : (m : ℕ) × Matrix (Fin m) (Fin m) ℂ, s1.1 ≠ s2.1 →
      scat_product_np s1 s2
        = .error " Different size for scattering matrices") := by
  refine ⟨?_, ?_, ?_, ?_⟩
  · intro st x0 xf Vnm np r w h prev hn hprev hx
    have hb : boundary_check st x0 = .error ("Regions dont match", st) := by
      simp [boundary_check, hn, hprev, hx]
    simp [add_nw, hb]
  · intro st x0 xf Vnm np w h hwh st2
    cases hbc : boundary_check st x0 with
    | error err => simp [add_nw, hbc]
    | ok u =>
      rcases hwh with hw | hh
      · simp [add_nw, hbc, hw]
      · simp [add_nw, hbc, hh]
  · intro N modes dx dR E vf p q V hpq
    simp [M_EV_np, hpq]
  · intro s1 s2 hne
    simp [scat_product_np, hne]

/-- C7 witness: concrete instances of all four configuration errors. -/
theorem claim7_witness :
    (cfg1.n_regions ≠ 0)
    ∧ (cfg1.geometry (cfg1.n_regions - 1) = some wireReg1)
    ∧ ((5 : ℝ) ≠ wireReg1.xf)
    ∧ (add_nw cfg1 5 6 none none (some 1) none none
        = .error ("Regions dont match", cfg1))
    ∧ (add_nw (transport.init 1 0 0 0) 0 1 none none none none none
        ≠ .ok (transport.init 1 0 0 0))
    ∧ (¬((2 : ℕ) = 1 ∧ (2 : ℕ) = 1))
    ∧ (M_EV_np (fun i : Fin 1 => (i : ℤ)) 1 0 0 1
        (some ⟨2, 2, (1 : Matrix (Fin 2) (Fin 2) ℂ)⟩)
      = .error "Vnm must be the Fourier transform matrix of V")
    ∧ ((⟨1, 1⟩ : (m : ℕ) × Matrix (Fin m) (Fin m) ℂ).1
        ≠ (⟨2, 1⟩ : (m : ℕ) × Matrix (Fin m) (Fin m) ℂ).1)
    ∧ (scat_product_np ⟨1, 1⟩ ⟨2, 1⟩
        = .error " Different size for scattering matrices") := by
  have h1 : cfg1.n_regions ≠ 0 := by norm_num [cfg1]
  have h2 : cfg1.geometry (cfg1.n_regions - 1) = some wireReg1 := rfl
  have h3 : (5 : ℝ) ≠ wireReg1.xf := by norm_num [wireReg1, Region.xf]
  have h6 : ¬((2 : ℕ) = 1 ∧ (2 : ℕ) = 1) := by decide
  have h8 : (⟨1, 1⟩ : (m : ℕ) × Matrix (Fin m) (Fin m) ℂ).1
      ≠ (⟨2, 1⟩ : (m : ℕ) × Matrix (Fin m) (Fin m) ℂ).1 := by decide
  exact ⟨h1, h2, h3,
    claim7_config_errors.1 cfg1 5 6 none none (some 1) none none wireReg1
      h1 h2 h3,
    claim7_config_errors.2.1 (transport.init 1 0 0 0) 0 1 none none none none
      (Or.inl rfl) (transport.init 1 0 0 0),
    h6,
    claim7_config_errors.2.2.1 1 (fun i : Fin 1 => (i : ℤ)) 1 0 0 1 2 2 1 h6,
    h8,
    claim7_config_errors.2.2.2 ⟨1, 1⟩ ⟨2, 1⟩ h8⟩

/-- C8: for a wire region and a momentum range containing `k = 0`, when
`B_perp = 0` the column of band energies returned by `get_bands_nw` at
`k = 0` equals the returned band-bottom spectrum `V`: both are the
ascending-sorted eigenvalue list of the same momentum-independent
Hamiltonian block `Hxtheta`, since at `k = 0` the kinetic term
`vf·k·(diag ⊗ σx)` vanishes. -/
theorem claim8_bands_k0_eq_bottom :
    ∀ (st : transport) (region : ℕ) (k_range : List ℝ)
      (eig : Matrix (Fin st.Nmodes × Fin 2) (Fin st.Nmodes × Fin 2) ℂ → List ℝ)
      (idx : ℕ) (x0 xf dx : ℝ) (np : Option ℕ) (V : Option (NMat st.Nmodes))
      (r : ℝ) (w h : Option ℝ),
      st.B_perp = 0 →
      st.geometry region = some (Region.nw x0 xf dx np V r w h) →
      k_range[idx]? = some 0 →
      ∃ (Ecols : List (List ℝ)) (Vb : List ℝ),
        get_bands_nw st region k_range eig = .ok (Ecols, Vb)
          ∧ Ecols[idx]? = some Vb := by
  intro st region k_range eig idx x0 xf dx np V r w h hB hreg hk
  have hBfalse : ¬(st.B_perp ≠ 0) := by simp [hB]
  simp only [get_bands_nw, hreg, if_neg hBfalse]
  refine ⟨_, _, rfl, ?_⟩
  rw [List.getElem?_map, hk]
  have hzero : (Matrix.diagonal fun _ : Fin st.Nmodes =>
      ((st.vf * (0 : ℝ) : ℝ) : ℂ)) = 0 := by
    simp
  rw [Option.map_some', hzero, Matrix.kroneckerMap_zero_left _ zero_mul,
    zero_add]

/-- C8 witness: the one-wire configuration `cfg1` (`B_perp = 0`) with
momentum range `[0]`. -/
theorem claim8_witness :
    (cfg1.B_perp = 0)
    ∧ (cfg1.geometry 0 = some (Region.nw 0 1 1 (some 1) none 1 none none))
    ∧ (([(0 : ℝ)])[0]? = some 0)
    ∧ (∃ (Ecols : List (List ℝ)) (Vb : List ℝ),
        get_bands_nw cfg1 0 [(0 : ℝ)] (fun _ => []) = .ok (Ecols, Vb)
          ∧ Ecols[0]? = some Vb) := by
  refine ⟨rfl, rfl, rfl, ?_⟩
  exact claim8_bands_k0_eq_bottom cfg1 0 [(0 : ℝ)] (fun _ => []) 0 0 1 1
    (some 1) none 1 none none rfl rfl rfl

/-- C9: `get_Landauer_conductance` and `get_bands_nw` are side-effect-free
and deterministic.  Their state-passing translations leave the configuration
unchanged — every field (`geometry`, `n_regions`, `vf`, `B_perp`, `B_par`,
`l_cutoff`) and the derived attributes `modes` and `Nmodes` — and a second
call on the state left by the first, with the same arguments, returns the
same result. -/
theorem claim9_methods_pure :
    ∀ (st : transport) (expf : SMat st.Nmodes → SMat st.Nmodes) (E : ℝ)
      (region : ℕ) (k_range : List ℝ)
      (eig : Matrix (Fin st.Nmodes × Fin 2) (Fin st.Nmodes × Fin 2) ℂ → List ℝ),
      ((get_Landauer_conductance_st st expf E).2 = st
        ∧ (get_Landauer_conductance_st st expf E).2.geometry = st.geometry
        ∧ (get_Landauer_conductance_st st expf E).2.n_regions = st.n_regions
        ∧ (get_Landauer_conductance_st st expf E).2.vf = st.vf
        ∧ (get_Landauer_conductance_st st expf E).2.B_perp = st.B_perp
        ∧ (get_Landauer_conductance_st st expf E).2.B_par = st.B_par
        ∧ (get_Landauer_conductance_st st expf E).2.l_cutoff = st.l_cutoff
        ∧ (get_Landauer_conductance_st st expf E).2.modes = st.modes
        ∧ (get_Landauer_conductance_st st expf E).2.Nmodes = st.Nmodes)
      ∧ (get_Landauer_conductance_st
            (get_Landauer_conductance_st st expf E).2 expf E).1
          = (get_Landauer_conductance_st st expf E).1
      ∧ (get_bands_nw_st st region k_range eig).2 = st
      ∧ (get_bands_nw_st
            (get_bands_nw_st st region k_range eig).2 region k_range eig).1
          = (get_bands_nw_st st region k_range eig).1 := by
  intro st expf E region k_range eig
  exact ⟨⟨rfl, rfl, rfl, rfl, rfl, rfl, rfl, rfl, rfl⟩, rfl, rfl, rfl⟩

/-- C10: `add_nw` and `add_nc` are atomic on failure — whenever either
raises a validation error (mismatched boundary coordinate or missing shape
parameters), the state carried at raise time is the unchanged input
configuration: `n_regions` keeps its value and `geometry` is untouched.
This holds because both checks precede every mutation in the method
bodies. -/
theorem claim10_add_atomic :
    (∀ (st : transport) (x0 xf : ℝ) (Vnm : Option (NMat st.Nmodes))
        (n_points : Option ℕ) (r w h : Option ℝ) (msg : String)
        (st2 : transport),
      add_nw st x0 xf Vnm n_points r w h = .error (msg, st2) →
      st2 = st ∧ st2.n_regions = st.n_regions ∧ HEq st2.geometry st.geometry)
    ∧ (∀ (st : transport) (x0 xf : ℝ) (n_points : ℕ)
        (Vnm : Option (NMat st.Nmodes)) (sigma r1 r2 w1 w2 h1 h2 : Option ℝ)
        (msg : String) (st2 : transport),
      add_nc st x0 xf n_points Vnm sigma r1 r2 w1 w2 h1 h2
          = .error (msg, st2) →
      st2 = st ∧ st2.n_regions = st.n_regions
        ∧ HEq st2.geometry st.geometry) := by
  constructor
  · intro st x0 xf Vnm np r w h msg st2 hadd
    suffices hst : st2 = st by
      subst hst
      exact ⟨rfl, rfl, HEq.rfl⟩
    cases hbc : boundary_check st x0 with
    | error err =>
      have herr : err.2 = st := boundary_check_error st x0 err hbc
      simp only [add_nw, hbc] at hadd
      injection hadd with h1
      rw [h1] at herr
      exact herr
    | ok u =>
      simp only [add_nw, hbc] at hadd
      split at hadd
      · injection hadd with h1
        exact (congrArg Prod.snd h1).symm
      · exact Except.noConfusion hadd
  · intro st x0 xf np Vnm sigma r1 r2 w1 w2 h1 h2 msg st2 hadd
    suffices hst : st2 = st by
      subst hst
      exact ⟨rfl, rfl, HEq.rfl⟩
    cases hbc : boundary_check st x0 with
    | error err =>
      have herr : err.2 = st := boundary_check_error st x0 err hbc
      simp only [add_nc, hbc] at hadd
      injection hadd with hh
      rw [hh] at herr
      exact herr
    | ok u =>
      simp only [add_nc, hbc] at hadd
      split at hadd
      · injection hadd with hh
        exact (congrArg Prod.snd hh).symm
      · split at hadd
        · injection hadd with hh
          exact (congrArg Prod.snd hh).symm
        · exact Except.noConfusion hadd

/-- C10 witness: a failing `add_nw` (missing shape parameters) on the fresh
configuration leaves it unchanged. -/
theorem claim10_witness :
    (add_nw (transport.init 1 0 0 0) 0 1 none none none none none
        = .error ("Need to specify r or (w, h)", transport.init 1 0 0 0))
    ∧ transport.init 1 0 0 0 = transport.init 1 0 0 0
    ∧ (transport.init 1 0 0 0).n_regions = (transport.init 1 0 0 0).n_regions
    ∧ HEq (transport.init 1 0 0 0).geometry
        (transport.init 1 0 0 0).geometry := by
  refine ⟨rfl, ?_⟩
  exact claim10_add_atomic.1 (transport.init 1 0 0 0) 0 1 none none none none
    none "Need to specify r or (w, h)" (transport.init 1 0 0 0) rfl

end TransportModel
